import Mathlib

/-!
Shallow embedding of `salary_calculator_django_models_exapmle.py`.

Conventions used throughout:
* Dates and datetimes are modelled as natural numbers (`Ymd` triples for
  calendar dates used by the working-calendar engine, plain `Nat`
  timestamps for the `DateTimeField` / `DateField` values that are only
  compared and never decomposed).
* Primary keys are natural numbers; an unsaved instance has `pk = none`.
* The Django ORM store is a record `St` of lists, one per table; `save`
  with a fresh instance appends a row with the next free pk.
* Python `raise ValidationError` is modelled by returning the state at
  the moment of the raise together with an error value: Django performs
  no rollback here, so mutations already applied stay applied.
-/

set_option maxHeartbeats 1000000

/-- Calendar date (year, month, day), the model of a Python `datetime.date`. -/
structure Ymd where
  y : Nat
  m : Nat
  d : Nat
deriving DecidableEq, Repr

/-- Chronological comparison of calendar dates as performed by the date
store (`date__gte` / `date__lte` range queries).  For calendar dates this
is the lexicographic order on (year, month, day). -/
def ymd_le (a b : Ymd) : Bool :=
  decide (a.y < b.y ∨ (a.y = b.y ∧ (a.m < b.m ∨ (a.m = b.m ∧ a.d ≤ b.d))))

/-- Gregorian leap year rule (as used by Python `calendar`). -/
def isLeap (y : Nat) : Bool :=
  (y % 4 == 0 && y % 100 != 0) || y % 400 == 0

/-- Number of days of month `m` of year `y` (Python `calendar.monthrange`). -/
def daysInMonth (y m : Nat) : Nat :=
  if m = 2 then (if isLeap y then 29 else 28)
  else if m = 4 ∨ m = 6 ∨ m = 9 ∨ m = 11 then 30 else 31

/-- Days in year `y` strictly before month `m`. -/
def daysBeforeMonth (y m : Nat) : Nat :=
  ((List.range' 1 (m - 1)).map (daysInMonth y)).sum

/-- Proleptic-Gregorian ordinal of a date, `date.toordinal` in Python
(`toOrdinal ⟨1, 1, 1⟩ = 1`). -/
def toOrdinal (g : Ymd) : Nat :=
  365 * (g.y - 1) + (g.y - 1) / 4 - (g.y - 1) / 100 + (g.y - 1) / 400
    + daysBeforeMonth g.y g.m + g.d

/-- Python `date.weekday()`: 0 = Monday, ..., 6 = Sunday.  This is the
weekday number produced by `calendar.Calendar.itermonthdays2`. -/
def pyWeekday (g : Ymd) : Nat := (toOrdinal g + 6) % 7

/-- `WeeklyCalendarScheme`: working hours for each weekday, zero meaning a
day off. -/
structure WeeklyCalendarScheme where
  name : String
  mon : Nat
  tue : Nat
  wed : Nat
  thu : Nat
  fri : Nat
  sat : Nat
  sun : Nat
deriving DecidableEq, Repr

/-- `getattr(wcs, weekday, 0)` where `weekday` is the name `WEEKDAYS[wd]`
for the weekday number `wd`. -/
def wcs_hours (w : WeeklyCalendarScheme) (wd : Nat) : Nat :=
  match wd with
  | 0 => w.mon
  | 1 => w.tue
  | 2 => w.wed
  | 3 => w.thu
  | 4 => w.fri
  | 5 => w.sat
  | 6 => w.sun
  | _ => 0

/-- `YearlyCalendarSchemeRow`: a per-date override of the weekly pattern;
zero hours is a day off. -/
structure YearlyCalendarSchemeRow where
  date : Ymd
  hours : Nat
  description : Option String
deriving DecidableEq, Repr

/-- One step of a Python `dict.update({k: v})` on a dict represented as an
association list in insertion order: replace the value if the key is
present (keeping its position), otherwise append the binding. -/
def dict_update : List (Ymd × Nat) → Ymd → Nat → List (Ymd × Nat)
  | [], k, v => [(k, v)]
  | kv :: t, k, v => if kv.1 = k then (k, v) :: t else kv :: dict_update t k v

/-- Python `d.get(k)` on the association-list dict. -/
def dict_get (l : List (Ymd × Nat)) (k : Ymd) : Option Nat :=
  (l.find? (fun kv => decide (kv.1 = k))).map (fun kv => kv.2)

/-- `CalendarScheme._get_month_days`: all days of the month, in ascending
order, with their weekday number.  (The source also carries the
zero-padded day string, which is a formatting artefact of the date/day
components and is dropped here.) -/
def get_month_days (y m : Nat) : List (Ymd × Nat) :=
  (List.range' 1 (daysInMonth y m)).map (fun d => (⟨y, m, d⟩, pyWeekday ⟨y, m, d⟩))

/-- `CalendarScheme._get_month_working_hours` for a scheme whose linked
weekly scheme is `w` and whose linked yearly scheme has rows `rows`:
start from the weekly hours for every day of the month
(`month_dates[0][0]` is day 1 and `month_dates[-1][0]` is the last day),
then overlay every yearly row whose date lies in the month. -/
def get_month_working_hours (w : WeeklyCalendarScheme)
    (rows : List YearlyCalendarSchemeRow) (y m : Nat) : List (Ymd × Nat) :=
  let md := get_month_days y m
  let base := md.map (fun p => (p.1, wcs_hours w p.2))
  let month_start : Ymd := ⟨y, m, 1⟩
  let month_end : Ymd := ⟨y, m, daysInMonth y m⟩
  let in_range := rows.filter (fun r => ymd_le month_start r.date && ymd_le r.date month_end)
  in_range.foldl (fun acc r => dict_update acc r.date r.hours) base

/-- One element of the `CalendarScheme.get_month_working_days` result. -/
structure MonthDay where
  dt : Ymd
  day : Nat
  weekday : Nat
  hours : Nat
  eow : Bool
  cur : Bool
deriving DecidableEq, Repr

/-- `CalendarScheme.get_month_working_days`; `today` models `date.today()`. -/
def get_month_working_days (w : WeeklyCalendarScheme)
    (rows : List YearlyCalendarSchemeRow) (y m : Nat) (today : Ymd) : List MonthDay :=
  let wh := get_month_working_hours w rows y m
  let md := get_month_days y m
  md.map (fun p =>
    { dt := p.1
      day := p.1.d
      weekday := p.2
      hours := (dict_get wh p.1).getD 0
      eow := decide (p.2 = 6)
      cur := decide (p.1 = today) })

/-- `CalendarScheme.get_working_days_count`: days of the month with a
truthy (nonzero) hours value. -/
def get_working_days_count (w : WeeklyCalendarScheme)
    (rows : List YearlyCalendarSchemeRow) (y m : Nat) : Nat :=
  let wh := get_month_working_hours w rows y m
  (wh.filter (fun kv => decide (kv.2 ≠ 0))).length

/-- `CalendarScheme.get_working_hours_count`: sum of the per-day hours. -/
def get_working_hours_count (w : WeeklyCalendarScheme)
    (rows : List YearlyCalendarSchemeRow) (y m : Nat) : Nat :=
  let wh := get_month_working_hours w rows y m
  (wh.map (fun kv => kv.2)).sum

/-! ### The persistent store -/
/-- `CalendarScheme` row: a named pairing of a weekly and a yearly scheme
with the system-wide `default_scheme` flag. -/
structure CalScheme where
  pk : Option Nat
  name : String
  weekly_calendar_scheme : Nat
  yearly_calendar_scheme : Nat
  default_scheme : Bool
deriving DecidableEq, Repr

/-- `Role` row.  `salary` is the decimal salary value, `calendar_scheme`
and `replaced_by` are foreign keys. -/
structure Role where
  pk : Option Nat
  name : String
  salary_type : Nat
  salary : Int
  calendar_scheme : Nat
  color : Option String
  is_paid_on_vacation : Bool
  date_start : Nat
  date_end : Option Nat
  replaced_by : Option Nat
deriving DecidableEq, Repr

/-- `Position` row together with its many-to-many `roles` set (the set of
role pks currently attached). -/
structure Position where
  pk : Nat
  name : String
  roles : List Nat
deriving DecidableEq, Repr

/-- `PositionRolesLog` row: one open (`date_end = none`) or closed
interval during which a role was attached to a position. -/
structure PRLog where
  pk : Nat
  position : Nat
  role : Nat
  date_start : Nat
  date_end : Option Nat
deriving DecidableEq, Repr

/-- `Worker` row. -/
structure Worker where
  pk : Option Nat
  person : Nat
  position : Nat
  date_start : Nat
  date_end : Option Nat
deriving DecidableEq, Repr

/-- `WorkLog` row: hours spent by a worker in a role on a date. -/
structure WorkLog where
  pk : Nat
  worker : Nat
  role : Nat
  date : Nat
  hours : Int
deriving DecidableEq, Repr

/-- `WorkLogMigration` row. -/
structure Migration where
  pk : Option Nat
  old_worker : Nat
  new_worker : Nat
  date_migrate_from : Nat
  commit : Bool
deriving DecidableEq, Repr

/-- `WorkLogRoleMigration` row.  (`new_role` is a nullable column in the
source, but `WorkLogRoleMigration.clean` rejects any value that is not a
role of the new worker, so a stored child row always carries an actual
role pk, which is what the commit step assigns to the work logs.) -/
structure RoleMig where
  pk : Nat
  migration : Nat
  old_role : Nat
  new_role : Nat
deriving DecidableEq, Repr

/-- The backing store: one list per table, plus the next free primary
key.  Tables not referenced by any proof (persons, modifiers,
corrections, vacations) are omitted. -/
structure St where
  calschemes : List CalScheme
  roles : List Role
  positions : List Position
  prlogs : List PRLog
  worklogs : List WorkLog
  migrations : List Migration
  roleMigs : List RoleMig
  nextPk : Nat
deriving DecidableEq, Repr

/-- Errors surfaced by the operations: Django `ValidationError` with its
message, the uncaught `MultipleObjectsReturned` a `get` raises when
several rows match, and exhaustion of the recursion budget of the
embedding (never reached by the actual control flow, which recurses at
most twice). -/
inductive VErr where
  | validation : String → VErr
  | multiple_objects : VErr
  | missing_row : VErr
  | out_of_fuel : VErr
deriving DecidableEq, Repr

/-- Run a list of steps that thread the store and may raise: a raise
aborts the remaining steps but keeps the state already written (no
rollback). -/
def run_list {α : Type} (f : St → α → St × Option VErr) : St → List α → St × Option VErr
  | s, [] => (s, none)
  | s, x :: xs =>
    match f s x with
    | (s1, some e) => (s1, some e)
    | (s1, none) => run_list f s1 xs

/-! ### CalendarScheme.save -/
/-- `models.Model.save` for a `CalendarScheme` instance: update the row
with the instance's pk if it exists, insert otherwise (a fresh pk is
drawn from the sequence when the instance has none). -/
def raw_save_cal (s : St) (c : CalScheme) : St :=
  match c.pk with
  | some p =>
    if s.calschemes.any (fun x => decide (x.pk = some p)) then
      { s with calschemes := s.calschemes.map (fun x => if x.pk = some p then c else x) }
    else
      { s with calschemes := s.calschemes ++ [c], nextPk := max s.nextPk (p + 1) }
  | none =>
    { s with calschemes := s.calschemes ++ [{ c with pk := some s.nextPk }],
             nextPk := s.nextPk + 1 }

/-- `CalendarScheme.save`: if the instance has `default_scheme` set,
first clear the flag on every stored scheme, then save the instance. -/
def calendar_scheme_save (s : St) (c : CalScheme) : St :=
  let s1 :=
    if c.default_scheme then
      { s with calschemes := s.calschemes.map (fun x => { x with default_scheme := false }) }
    else s
  raw_save_cal s1 c

/-! ### Worker.is_active -/
/-- `Worker.is_active` exactly as written in the source:
`if not self.date_end or self.date_end < timezone.now(): return True`. -/
def worker_is_active (w : Worker) (now : Nat) : Bool :=
  match w.date_end with
  | none => true
  | some e => decide (e < now)

/-! ### WorkLogMigration -/
/-- `models.Model.save` for a `WorkLogMigration` instance. -/
def raw_save_migration (s : St) (i : Migration) : St × Migration :=
  match i.pk with
  | some p =>
    if s.migrations.any (fun x => decide (x.pk = some p)) then
      ({ s with migrations := s.migrations.map (fun x => if x.pk = some p then i else x) }, i)
    else
      ({ s with migrations := s.migrations ++ [i], nextPk := max s.nextPk (p + 1) }, i)
  | none =>
    let i' := { i with pk := some s.nextPk }
    ({ s with migrations := s.migrations ++ [i'], nextPk := s.nextPk + 1 }, i')

/-- `WorkLogMigration.clean`: when the instance is being committed,
validate (must already be stored, stored version must not be committed)
and then perform the commit side effects on the work logs: one
sequential reassignment pass per child role migration, then, if the
worker changes, deletion of the remaining old-worker rows from the
cutover on. -/
def work_log_migration_clean (s : St) (i : Migration) : St × Option VErr :=
  if i.commit then
    match i.pk with
    | none => (s, some (VErr.validation ("you have to save migration without commit first")))
    | some p =>
      match s.migrations.find? (fun m => decide (m.pk = some p)) with
      | none => (s, some (VErr.validation ("something wrong with the migration")))
      | some m =>
        if m.commit then
          (s, some (VErr.validation ("you can not change committed migrations!")))
        else
          let rms := s.roleMigs.filter (fun rm => decide (rm.migration = p))
          let wl1 := rms.foldl
            (fun wls rm => wls.map (fun w =>
              if w.worker = i.old_worker ∧ w.role = rm.old_role ∧ i.date_migrate_from ≤ w.date
              then { w with worker := i.new_worker, role := rm.new_role } else w))
            s.worklogs
          let wl2 :=
            if i.old_worker = i.new_worker then wl1
            else wl1.filter (fun w =>
              !(decide (w.worker = i.old_worker) && decide (i.date_migrate_from ≤ w.date)))
          ({ s with worklogs := wl2 }, none)
  else (s, none)

/-- `WorkLogMigration.save` = `full_clean` (which is `clean`) then the
base save; a `ValidationError` propagates with the store as already
mutated by `clean` (here: not at all, since `clean` raises before
touching anything). -/
def work_log_migration_save (s : St) (i : Migration) : St × Except VErr Migration :=
  match work_log_migration_clean s i with
  | (s1, some e) => (s1, Except.error e)
  | (s1, none) =>
    let si := raw_save_migration s1 i
    (si.1, Except.ok si.2)

/-! ### Lemmas: CalendarScheme.save and the single-default invariant -/
/-- At most one stored scheme carries the default flag. -/
def at_most_one_default (s : St) : Prop :=
  (s.calschemes.filter (fun x => x.default_scheme)).length ≤ 1

/-- Store well-formedness for the calendar-scheme table: rows have
pairwise distinct assigned pks, all below the pk sequence. -/
def cal_table_wf (s : St) : Prop :=
  s.calschemes.Pairwise (fun x y => x.pk ≠ y.pk) ∧
  ∀ x ∈ s.calschemes, ∃ p, x.pk = some p ∧ p < s.nextPk

/-- The per-row outcome the claim describes for a committed migration:
rows of the old worker dated on/after the cutover move to the new worker
and to the new role of the RoleMigration whose old role matches; rows
with no matching RoleMigration are deleted when the worker changes;
all other rows stay unchanged.  (Phrased from the claim, to be compared
with the code's sequential passes.) -/
def claimed_migration_result (ow nw dfrom : Nat) (rms : List RoleMig)
    (wls : List WorkLog) : List WorkLog :=
  wls.filterMap (fun w =>
    if w.worker = ow ∧ dfrom ≤ w.date then
      match rms.find? (fun rm => decide (rm.old_role = w.role)) with
      | some rm => some { w with worker := nw, role := rm.new_role }
      | none => if ow = nw then some w else none
    else some w)

/-! ### Position role-set mutations and the PositionRolesLog handler -/
/-- The fixed backfill start `datetime(2016, 1, 1)` used when a role is
removed without an open log entry, modelled as the epoch 0, earlier than
every operation timestamp. -/
def backfill_epoch : Nat := 0

/-- Does a log row count as the open entry of this (position, role)? -/
def open_pred (posPk rolePk : Nat) (e : PRLog) : Bool :=
  decide (e.position = posPk ∧ e.role = rolePk ∧ e.date_end = none)

/-- The open PositionRolesLog entries of a (position, role) pair. -/
def open_entries (s : St) (posPk rolePk : Nat) : List PRLog :=
  s.prlogs.filter (open_pred posPk rolePk)

/-- Number of open PositionRolesLog entries of a (position, role) pair. -/
def open_count (s : St) (posPk rolePk : Nat) : Nat :=
  (open_entries s posPk rolePk).length

/-- `roles_changed`, `post_add` branch, for one added role pk:
`get_or_create(position=instance, role_id=pk, date_start=timezone.now())`
creates an open entry unless a row with exactly these three values
already exists; the underlying `get` raises when several rows match. -/
def roles_changed_add_one (s : St) (posPk rolePk now : Nat) : St × Option VErr :=
  match s.prlogs.filter (fun e =>
      decide (e.position = posPk ∧ e.role = rolePk ∧ e.date_start = now)) with
  | [] =>
    ({ s with
        prlogs := s.prlogs ++ [⟨s.nextPk, posPk, rolePk, now, none⟩],
        nextPk := s.nextPk + 1 }, none)
  | [_] => (s, none)
  | _ => (s, some VErr.multiple_objects)

/-- `roles_changed`, `post_remove` branch, for one removed role pk: close
the open entry at `now` if there is exactly one; if there is none,
create a backfill row starting at the epoch and then save it closed at
`now`; several open entries make the `get` raise. -/
def roles_changed_remove_one (s : St) (posPk rolePk now : Nat) : St × Option VErr :=
  match open_entries s posPk rolePk with
  | [] =>
    let log : PRLog := ⟨s.nextPk, posPk, rolePk, backfill_epoch, none⟩
    let s1 : St := { s with prlogs := s.prlogs ++ [log], nextPk := s.nextPk + 1 }
    ({ s1 with prlogs := s1.prlogs.map (fun e =>
        if e.pk = log.pk then { log with date_end := some now } else e) }, none)
  | [log] =>
    ({ s with prlogs := s.prlogs.map (fun e =>
        if e.pk = log.pk then { log with date_end := some now } else e) }, none)
  | _ => (s, some VErr.multiple_objects)

/-- `roles_changed`, `post_clear` branch: close every open entry of the
position at `now`. -/
def roles_changed_clear (s : St) (posPk now : Nat) : St :=
  { s with prlogs := s.prlogs.map (fun e =>
      if e.position = posPk ∧ e.date_end = none then { e with date_end := some now } else e) }

/-- Replace the role set of the position with the given pk. -/
def position_update_roles (s : St) (posPk : Nat) (f : List Nat → List Nat) : St :=
  { s with positions := s.positions.map (fun q =>
      if q.pk = posPk then { q with roles := f q.roles } else q) }

/-- `position.roles.add(*pks)`: Django inserts through rows only for pks
not already attached and fires `post_add` with exactly those new ids,
which `roles_changed` handles one by one.  The position is a stored row
(`missing_row` marks the unreachable unstored case). -/
def position_roles_add (s : St) (posPk : Nat) (pks : List Nat) (now : Nat) :
    St × Option VErr :=
  match s.positions.find? (fun q => decide (q.pk = posPk)) with
  | none => (s, some VErr.missing_row)
  | some q =>
    let new_ids := (pks.dedup).filter (fun r => !q.roles.contains r)
    let s1 := position_update_roles s posPk (fun rs => rs ++ new_ids)
    run_list (fun st r => roles_changed_add_one st posPk r now) s1 new_ids

/-- `position.roles.remove(*pks)`: Django deletes the through rows and
fires `post_remove` with the full (deduplicated) pk set, without
filtering out pks that were not attached. -/
def position_roles_remove (s : St) (posPk : Nat) (pks : List Nat) (now : Nat) :
    St × Option VErr :=
  match s.positions.find? (fun q => decide (q.pk = posPk)) with
  | none => (s, some VErr.missing_row)
  | some _ =>
    let old_ids := pks.dedup
    let s1 := position_update_roles s posPk (fun rs => rs.filter (fun r => !old_ids.contains r))
    run_list (fun st r => roles_changed_remove_one st posPk r now) s1 old_ids

/-- `position.roles.clear()`: empty the set, then `post_clear` closes
every open entry of the position. -/
def position_roles_clear (s : St) (posPk now : Nat) : St × Option VErr :=
  match s.positions.find? (fun q => decide (q.pk = posPk)) with
  | none => (s, some VErr.missing_row)
  | some _ =>
    (roles_changed_clear (position_update_roles s posPk (fun _ => [])) posPk now, none)

/-- A role-set mutation on a position, with the time at which it runs. -/
inductive MutOp where
  | add : Nat → List Nat → Nat → MutOp
  | remove : Nat → List Nat → Nat → MutOp
  | clear : Nat → Nat → MutOp
deriving DecidableEq, Repr

/-- The pk of the position an operation targets. -/
def MutOp.target : MutOp → Nat
  | .add q _ _ => q
  | .remove q _ _ => q
  | .clear q _ => q

/-- The time at which an operation runs. -/
def MutOp.time : MutOp → Nat
  | .add _ _ t => t
  | .remove _ _ t => t
  | .clear _ t => t

/-- Run one role-set mutation. -/
def apply_mut (s : St) : MutOp → St × Option VErr
  | .add q pks t => position_roles_add s q pks t
  | .remove q pks t => position_roles_remove s q pks t
  | .clear q t => position_roles_clear s q t

/-- Run a sequence of role-set mutations, stopping at the first raise. -/
def apply_muts : St → List MutOp → St × Option VErr :=
  run_list apply_mut

/-- Validity of an operation sequence: every operation targets a stored
position and operation times increase strictly, starting at `t`. -/
def ops_valid (s : St) : Nat → List MutOp → Prop
  | _, [] => True
  | t, op :: rest =>
      t ≤ op.time ∧ (∃ q ∈ s.positions, q.pk = op.target) ∧
        ops_valid s (op.time + 1) rest

/-- The claim's ledger invariant, for every stored position: exactly one
open log entry per attached role and none for any other role (in
particular at most one open entry per (position, role) pair, and the
set of roles with an open entry equals the position's role set). -/
def ledger_inv (s : St) : Prop :=
  ∀ q ∈ s.positions, ∀ r : Nat, open_count s q.pk r = (if r ∈ q.roles then 1 else 0)

/-- Store well-formedness threaded through the induction: distinct
position pks, duplicate-free role sets, distinct log pks below the pk
sequence, and all log start dates below `t`. -/
def ledger_wf (s : St) (t : Nat) : Prop :=
  (s.positions.map (fun q => q.pk)).Nodup ∧
  (∀ q ∈ s.positions, q.roles.Nodup) ∧
  (s.prlogs.map (fun e => e.pk)).Nodup ∧
  (∀ e ∈ s.prlogs, e.pk < s.nextPk) ∧
  (∀ e ∈ s.prlogs, e.date_start < t)

/-! ### Role.save, Role.clean, Role.replace_by -/
/-- `models.Model.save` for a `Role` instance: update the row with the
instance's pk if it exists, insert otherwise (a fresh pk is drawn from
the sequence when the instance has none, and Django writes it back into
the instance, which the second component returns). -/
def raw_role_save (s : St) (c : Role) : St × Role :=
  match c.pk with
  | some p =>
    if s.roles.any (fun x => decide (x.pk = some p)) then
      ({ s with roles := s.roles.map (fun x => if x.pk = some p then c else x) }, c)
    else
      ({ s with roles := s.roles ++ [c], nextPk := max s.nextPk (p + 1) }, c)
  | none =>
    let c' := { c with pk := some s.nextPk }
    ({ s with roles := s.roles ++ [c'], nextPk := s.nextPk + 1 }, c')

/-- The date_end of a closed PositionRolesLog row, for
`order_by('-date_end')` over rows with `date_end__isnull=False`. -/
def de_val (e : PRLog) : Nat :=
  match e.date_end with
  | some d => d
  | none => 0

/-- The first row of `order_by('-date_end')`: a row with maximal
date_end (the scan keeps the earliest stored one on ties, which no
theorem below depends on). -/
def max_by_date_end : List PRLog → Option PRLog
  | [] => none
  | e :: t =>
    match max_by_date_end t with
    | none => some e
    | some m => if de_val e < de_val m then some m else some e

/-- The body of `Role.replace_by`'s position loop for one position:
`position.roles.remove(self)`, `position.roles.add(other_role)`, then
re-date the most recently closed (position, old role) log row to `dt`
and the open (position, new role) log row's start to `dt` (the `get`
raises when several open rows match, `DoesNotExist` is passed). -/
def replace_position_step (s : St) (posPk sp op now dt : Nat) : St × Option VErr :=
  match position_roles_remove s posPk [sp] now with
  | (s1, some e) => (s1, some e)
  | (s1, none) =>
    match position_roles_add s1 posPk [op] now with
    | (s2, some e) => (s2, some e)
    | (s2, none) =>
      let closed := s2.prlogs.filter (fun e =>
        decide (e.position = posPk ∧ e.role = sp ∧ e.date_end ≠ none))
      let s3 :=
        match max_by_date_end closed with
        | none => s2
        | some lg =>
          { s2 with prlogs := s2.prlogs.map (fun (e : PRLog) =>
              if e.pk = lg.pk then { lg with date_end := some dt } else e) }
      match s3.prlogs.filter (open_pred posPk op) with
      | [] => (s3, none)
      | [lg] =>
        ({ s3 with prlogs := s3.prlogs.map (fun (e : PRLog) =>
            if e.pk = lg.pk then { lg with date_start := dt } else e) }, none)
      | _ => (s3, some VErr.multiple_objects)

mutual

/-- `Role.clean`, on the explicit store.  The first argument is the
recursion budget of the embedding (the control flow recurses at most
twice; `out_of_fuel` is never reached from a sufficient budget).
Returns the instance as mutated by the method (`self.pk` and
`self.date_end` are reset on the versioning path and the raw save
writes the fresh pk back).  `if self.pk` is the is-it-stored test, and
`Role.objects.get` is matched on the rows carrying the pk: no row is
`DoesNotExist` (passed), several raise. -/
def role_clean : Nat → Nat → St → Role → St × Except VErr Role
  | 0, _, s, _ => (s, Except.error VErr.out_of_fuel)
  | fuel + 1, now, s, self =>
    if h : ∃ de, self.date_end = some de ∧ de ≤ self.date_start then
      (s, Except.error (VErr.validation "date_end must be greater than date start"))
    else
      match self.pk with
      | none => (s, Except.ok self)
      | some p =>
        if 0 < s.worklogs.countP (fun w => decide (w.role = p)) then
          match s.roles.filter (fun x => decide (x.pk = some p)) with
          | [] => (s, Except.ok self)
          | [old_ins] =>
            if ¬ self.salary_type = old_ins.salary_type ∨
               ¬ self.salary = old_ins.salary ∨
               ¬ self.calendar_scheme = old_ins.calendar_scheme then
              if self.date_start ≤ old_ins.date_start then
                (s, Except.error (VErr.validation
                  "date start must be newer than in previous role version"))
              else
                let old1 := { old_ins with
                  name := "[" ++ toString self.date_start ++ "] " ++ self.name }
                let sc1 := raw_role_save s old1
                let self1 := { self with pk := none, date_end := none }
                let sc2 := raw_role_save sc1.1 self1
                match role_replace_by fuel now sc2.1 sc1.2 sc2.2 self.date_start with
                | (s3, some e) => (s3, Except.error e)
                | (s3, none) => (s3, Except.ok sc2.2)
            else (s, Except.ok self)
          | _ => (s, Except.error VErr.multiple_objects)
        else (s, Except.ok self)

/-- `Role.save`: `full_clean` (which is `clean`) and then the raw model
save of the possibly mutated instance. -/
def role_save : Nat → Nat → St → Role → St × Except VErr Role
  | 0, _, s, _ => (s, Except.error VErr.out_of_fuel)
  | fuel + 1, now, s, self =>
    match role_clean fuel now s self with
    | (s1, Except.error e) => (s1, Except.error e)
    | (s1, Except.ok self1) =>
      let sc := raw_role_save s1 self1
      (sc.1, Except.ok sc.2)

/-- `Role.replace_by(other_role, dt)`: close the instance at `dt`,
point it at the replacement and save it (a full validating save), then
repoint every role replaced by it, rewire every position holding it
(fixing the log rows up to `dt`), and reassign its work logs from `dt`
on.  Both roles are stored when called (`missing_row` marks the
unreachable unstored case). -/
def role_replace_by : Nat → Nat → St → Role → Role → Nat → St × Option VErr
  | 0, _, s, _, _, _ => (s, some VErr.out_of_fuel)
  | fuel + 1, now, s, self, other, dt =>
    match self.pk, other.pk with
    | some sp, some op =>
      let self1 := { self with date_end := some dt, replaced_by := some op }
      match role_save fuel now s self1 with
      | (s1, Except.error e) => (s1, some e)
      | (s1, Except.ok _) =>
        let s2 := { s1 with roles := s1.roles.map (fun x =>
            if x.replaced_by = some sp then { x with replaced_by := some op } else x) }
        match run_list (fun st posPk => replace_position_step st posPk sp op now dt)
            s2 ((s2.positions.filter (fun pos => pos.roles.contains sp)).map
              (fun pos => pos.pk)) with
        | (s3, some e) => (s3, some e)
        | (s3, none) =>
          ({ s3 with worklogs := s3.worklogs.map (fun w =>
              if w.role = sp ∧ dt ≤ w.date then { w with role := op } else w) }, none)
    | _, _ => (s, some VErr.missing_row)

end

/-- A concrete store for exercising the ledger theorem: one stored
position (pk 1) with an empty role set and an empty log. -/
def c4st : St :=
  { calschemes := [], roles := [], positions := [⟨1, "p", []⟩], prlogs := [],
    worklogs := [], migrations := [], roleMigs := [], nextPk := 2 }

/-- A concrete store with position 1 holding role 7 and its single open
log entry. -/
def c4st2 : St :=
  { calschemes := [], roles := [], positions := [⟨1, "p", [7]⟩],
    prlogs := [⟨0, 1, 7, 0, none⟩], worklogs := [], migrations := [],
    roleMigs := [], nextPk := 2 }

/-- Store for exercising the versioning-into-past failure: one stored
role with one work log on it. -/
def c7old : Role := ⟨some 10, "dev", 1, 100, 1, none, false, 5, none, none⟩

/-- Candidate with a changed salary and a date_start equal to the stored
one. -/
def c7cand : Role :=
  { c7old with
    salary := 200
    date_start := 5 }

/-- The store holding `c7old` and a work log referencing it. -/
def c7st : St :=
  { calschemes := []
    roles := [c7old]
    positions := []
    prlogs := []
    worklogs := [⟨30, 40, 10, 3, 8⟩]
    migrations := []
    roleMigs := []
    nextPk := 50 }

/-- Stored role for the versioning example. -/
def c1old : Role := ⟨some 10, "dev", 1, 100, 1, none, false, 5, none, none⟩

/-- Candidate for the versioning example: salary raised, date_start moved
from 5 to 7. -/
def c1cand : Role :=
  { c1old with
    salary := 200
    date_start := 7 }

/-- The store for the versioning example: role 10, one position holding
it, and two work logs (one before the cutover at 7, one after). -/
def c1st : St :=
  { calschemes := []
    roles := [c1old]
    positions := [⟨20, "pos", [10]⟩]
    prlogs := []
    worklogs := [⟨30, 40, 10, 3, 8⟩, ⟨31, 40, 10, 9, 8⟩]
    migrations := []
    roleMigs := []
    nextPk := 50 }

/-! ### Lemmas: the dictionary model -/
theorem dict_get_cons_eq (kv : Ymd × Nat) (t : List (Ymd × Nat)) (k : Ymd)
    (h : kv.1 = k) : dict_get (kv :: t) k = some kv.2 := by
  simp [dict_get, h]

theorem dict_get_cons_ne (kv : Ymd × Nat) (t : List (Ymd × Nat)) (k : Ymd)
    (h : ¬ kv.1 = k) : dict_get (kv :: t) k = dict_get t k := by
  simp [dict_get, h]

theorem dict_update_of_eq (kv : Ymd × Nat) (t : List (Ymd × Nat)) (k : Ymd) (v : Nat)
    (h : kv.1 = k) : dict_update (kv :: t) k v = (k, v) :: t := by
  simp [dict_update, h]

theorem dict_update_of_ne (kv : Ymd × Nat) (t : List (Ymd × Nat)) (k : Ymd) (v : Nat)
    (h : ¬ kv.1 = k) : dict_update (kv :: t) k v = kv :: dict_update t k v := by
  simp [dict_update, h]

theorem dict_get_update (l : List (Ymd × Nat)) (k : Ymd) (v : Nat) (k' : Ymd) :
    dict_get (dict_update l k v) k' = if k' = k then some v else dict_get l k' := by
  induction l with
  | nil =>
    by_cases h : k' = k
    · subst h; simp [dict_update, dict_get]
    · rw [if_neg h]
      show dict_get [(k, v)] k' = dict_get [] k'
      rw [dict_get_cons_ne _ _ _ (fun hh => h hh.symm)]
  | cons kv t ih =>
    by_cases h1 : kv.1 = k
    · rw [dict_update_of_eq _ _ _ _ h1]
      by_cases h2 : k' = k
      · subst h2; rw [if_pos rfl, dict_get_cons_eq _ _ _ rfl]
      · rw [if_neg h2, dict_get_cons_ne _ _ _ (fun hh => h2 hh.symm),
            dict_get_cons_ne _ _ _ (fun hh => h2 (h1 ▸ hh).symm)]
    · rw [dict_update_of_ne _ _ _ _ h1]
      by_cases h2 : kv.1 = k'
      · have hk : ¬ k' = k := fun hh => h1 (h2.trans hh)
        rw [if_neg hk, dict_get_cons_eq _ _ _ h2, dict_get_cons_eq _ _ _ h2]
      · rw [dict_get_cons_ne _ _ _ h2, ih]
        by_cases h3 : k' = k
        · simp [h3]
        · rw [if_neg h3, if_neg h3, dict_get_cons_ne _ _ _ h2]

theorem find?_of_filter_imp {α : Type} (l : List α) (p q : α → Bool)
    (h : ∀ x, p x = true → q x = true) :
    (l.filter q).find? p = l.find? p := by
  induction l with
  | nil => rfl
  | cons a t ih =>
    by_cases hp : p a = true
    · rw [List.filter_cons, if_pos (h a hp), List.find?_cons_of_pos _ hp,
          List.find?_cons_of_pos _ hp]
    · have hp' : ¬ p a := by simp [hp]
      by_cases hq : q a = true
      · rw [List.filter_cons, if_pos hq, List.find?_cons_of_neg _ hp',
            List.find?_cons_of_neg _ hp', ih]
      · rw [List.filter_cons, if_neg hq, List.find?_cons_of_neg _ hp', ih]

theorem dict_get_fold_updates (rs : List YearlyCalendarSchemeRow)
    (base : List (Ymd × Nat)) (k : Ymd)
    (hnd : (rs.map (fun r => r.date)).Nodup) :
    dict_get (rs.foldl (fun acc r => dict_update acc r.date r.hours) base) k =
      match rs.find? (fun r => decide (r.date = k)) with
      | some r => some r.hours
      | none => dict_get base k := by
  induction rs generalizing base with
  | nil => rfl
  | cons r t ih =>
    simp only [List.map_cons, List.nodup_cons] at hnd
    rw [List.foldl_cons, ih _ hnd.2]
    by_cases hk : r.date = k
    · have ht : t.find? (fun r' => decide (r'.date = k)) = none := by
        rw [List.find?_eq_none]
        intro x hx
        simp only [decide_eq_true_eq]
        intro hxk
        apply hnd.1
        rw [hk, ← hxk]
        exact List.mem_map_of_mem (fun r' => r'.date) hx
      rw [ht, List.find?_cons_of_pos _ (by simp [hk])]
      show dict_get (dict_update base r.date r.hours) k = some r.hours
      rw [dict_get_update, if_pos hk.symm]
    · rw [List.find?_cons_of_neg _ (by simp [hk])]
      cases hft : t.find? (fun r' => decide (r'.date = k)) with
      | some r' => rfl
      | none =>
        show dict_get (dict_update base r.date r.hours) k = dict_get base k
        rw [dict_get_update, if_neg (fun hh => hk hh.symm)]

theorem range'_find?_eq (a n d : Nat) :
    (List.range' a n).find? (fun x => decide (x = d)) =
      if a ≤ d ∧ d < a + n then some d else none := by
  induction n generalizing a with
  | zero =>
    rw [if_neg (by omega)]
    rfl
  | succ n ih =>
    by_cases had : a = d
    · subst had
      rw [List.range'_succ, List.find?_cons_of_pos _ (by simp), if_pos (by omega)]
    · rw [List.range'_succ, List.find?_cons_of_neg _ (by simp [had]), ih,
          if_congr (by omega : (a + 1 ≤ d ∧ d < a + 1 + n) ↔ (a ≤ d ∧ d < a + (n + 1))) rfl rfl]

theorem dict_get_weekly_base (w : WeeklyCalendarScheme) (y m d : Nat)
    (hd1 : 1 ≤ d) (hd2 : d ≤ daysInMonth y m) :
    dict_get ((get_month_days y m).map (fun p => (p.1, wcs_hours w p.2))) ⟨y, m, d⟩ =
      some (wcs_hours w (pyWeekday ⟨y, m, d⟩)) := by
  simp only [get_month_days, dict_get, List.map_map, List.find?_map]
  have hpred : ((fun kv : Ymd × Nat => decide (kv.1 = ⟨y, m, d⟩)) ∘
      (fun p : Ymd × Nat => (p.1, wcs_hours w p.2)) ∘
      fun x => ((⟨y, m, x⟩ : Ymd), pyWeekday ⟨y, m, x⟩)) = fun x => decide (x = d) := by
    funext x
    simp [Function.comp, Ymd.mk.injEq]
  rw [hpred, range'_find?_eq, if_pos (by omega)]
  rfl

/-- C2: for a valid (year, month), `get_month_working_days` returns
exactly one entry per calendar day of the month, in ascending date
order, and each day's hours is the yearly override's hours when an
override row with that exact date exists (zero included), otherwise the
weekly pattern's hours for the day's weekday; override rows dated
outside the month have no effect.  The `Nodup` hypothesis is the data
model's "at most one override per date per scheme" invariant. -/
theorem c2_month_resolution (w : WeeklyCalendarScheme)
    (rows : List YearlyCalendarSchemeRow) (y m : Nat) (today : Ymd)
    (hm1 : 1 ≤ m) (hm2 : m ≤ 12)
    (hnd : (rows.map (fun r => r.date)).Nodup) :
    (get_month_working_days w rows y m today).map (fun e => e.dt) =
      (List.range' 1 (daysInMonth y m)).map (fun d => (⟨y, m, d⟩ : Ymd)) ∧
    ∀ e ∈ get_month_working_days w rows y m today,
      e.hours = match rows.find? (fun r => decide (r.date = e.dt)) with
        | some r => r.hours
        | none => wcs_hours w (pyWeekday e.dt) := by
  constructor
  · simp [get_month_working_days, get_month_days, List.map_map, Function.comp]
  · intro e he
    simp only [get_month_working_days, List.mem_map] at he
    obtain ⟨p, hp, rfl⟩ := he
    simp only [get_month_days, List.mem_map] at hp
    obtain ⟨d, hd, rfl⟩ := hp
    have hd' : 1 ≤ d ∧ d < 1 + daysInMonth y m := List.mem_range'_1.mp hd
    show (dict_get (get_month_working_hours w rows y m) ⟨y, m, d⟩).getD 0 =
      match rows.find? (fun r => decide (r.date = (⟨y, m, d⟩ : Ymd))) with
      | some r => r.hours
      | none => wcs_hours w (pyWeekday ⟨y, m, d⟩)
    have hsub : ((rows.filter (fun r =>
        ymd_le ⟨y, m, 1⟩ r.date && ymd_le r.date ⟨y, m, daysInMonth y m⟩)).map
          (fun r => r.date)).Nodup :=
      hnd.sublist (List.Sublist.map _ (List.filter_sublist rows))
    simp only [get_month_working_hours]
    rw [dict_get_fold_updates _ _ _ hsub]
    rw [find?_of_filter_imp]
    · cases hf : rows.find? (fun r => decide (r.date = (⟨y, m, d⟩ : Ymd))) with
      | some r => rfl
      | none =>
        rw [dict_get_weekly_base w y m d hd'.1 (by omega)]
        rfl
    · intro r hr
      simp only [decide_eq_true_eq] at hr
      rw [hr]
      simp only [ymd_le, Bool.and_eq_true, decide_eq_true_eq]
      exact ⟨Or.inr ⟨trivial, Or.inr ⟨trivial, hd'.1⟩⟩,
             Or.inr ⟨trivial, Or.inr ⟨trivial, by omega⟩⟩⟩

/-- C9 counterexample: with the 5-day 8-hour weekly pattern and no
overrides, January 2016 does not have 22 working days / 176 working
hours under the code (it has 21 and 168: 31 days of which 5 are
Saturdays and 5 are Sundays). -/
theorem c9_january_2016_not_22_176 :
    ¬ (get_working_days_count ⟨"std", 8, 8, 8, 8, 8, 0, 0⟩ [] 2016 1 = 22 ∧
       get_working_hours_count ⟨"std", 8, 8, 8, 8, 8, 0, 0⟩ [] 2016 1 = 176) := by
  decide

/-- C9 amended: with the weekly pattern mon..fri = 8, sat = sun = 0 and
no yearly overrides, `get_working_days_count 2016 1 = 21` (the days with
hours > 0) and `get_working_hours_count 2016 1 = 168` (the sum of all
hours). -/
theorem c9_january_2016_counts :
    get_working_days_count ⟨"std", 8, 8, 8, 8, 8, 0, 0⟩ [] 2016 1 = 21 ∧
    get_working_hours_count ⟨"std", 8, 8, 8, 8, 8, 0, 0⟩ [] 2016 1 = 168 := by
  decide

theorem filter_default_clear (l : List CalScheme) :
    ((l.map (fun x => { x with default_scheme := false })).filter
      (fun x => x.default_scheme)) = [] := by
  induction l with
  | nil => rfl
  | cons x t ih => simpa using ih

theorem all_false_clear (l : List CalScheme) :
    ∀ x ∈ l.map (fun c => { c with default_scheme := false }), x.default_scheme = false := by
  intro x hx
  obtain ⟨c, _, rfl⟩ := List.mem_map.mp hx
  rfl

theorem filter_default_update_all_false (l : List CalScheme) (c : CalScheme) (p : Nat)
    (hall : ∀ x ∈ l, x.default_scheme = false) (hc : c.default_scheme = true) :
    (l.map (fun x => if x.pk = some p then c else x)).filter (fun x => x.default_scheme) =
      List.replicate (l.countP (fun x => decide (x.pk = some p))) c := by
  induction l with
  | nil => rfl
  | cons x t ih =>
    have hx := hall x (List.mem_cons_self x t)
    have ht := fun z hz => hall z (List.mem_cons_of_mem x hz)
    by_cases hp : x.pk = some p
    · simp [hp, hc, List.countP_cons, ih ht, List.replicate_succ]
    · simp [hp, hx, List.countP_cons, ih ht]

theorem countP_pk_le_one (l : List CalScheme) (p : Nat)
    (hpw : l.Pairwise (fun x y => x.pk ≠ y.pk)) :
    l.countP (fun x => decide (x.pk = some p)) ≤ 1 := by
  induction l with
  | nil => simp
  | cons x t ih =>
    rw [List.pairwise_cons] at hpw
    by_cases hp : x.pk = some p
    · have : t.countP (fun x => decide (x.pk = some p)) = 0 := by
        rw [List.countP_eq_zero]
        intro z hz
        simp only [decide_eq_true_eq]
        intro hzp
        exact hpw.1 z hz (hp.trans hzp.symm)
      simp [List.countP_cons, hp, this]
    · simpa [List.countP_cons, hp] using ih hpw.2

theorem countP_pk_pos_of_any (l : List CalScheme) (p : Nat)
    (h : l.any (fun x => decide (x.pk = some p)) = true) :
    1 ≤ l.countP (fun x => decide (x.pk = some p)) := by
  rw [List.any_eq_true] at h
  obtain ⟨x, hx, hpx⟩ := h
  calc 1 = [x].countP (fun x => decide (x.pk = some p)) := by
            simp only [List.countP_cons, List.countP_nil]
            simp [of_decide_eq_true hpx]
    _ ≤ _ := by
          apply List.Sublist.countP_le
          simpa using List.singleton_sublist.mpr hx

theorem filter_default_update_le (l : List CalScheme) (c : CalScheme) (p : Nat)
    (hc : c.default_scheme = false) :
    ((l.map (fun x => if x.pk = some p then c else x)).filter
        (fun x => x.default_scheme)).length ≤
      (l.filter (fun x => x.default_scheme)).length := by
  induction l with
  | nil => simp
  | cons x t ih =>
    simp only [List.map_cons, List.filter_cons]
    by_cases hp : x.pk = some p
    · rw [if_pos hp, if_neg (by simp [hc])]
      by_cases hd : x.default_scheme = true
      · rw [if_pos hd, List.length_cons]
        omega
      · rw [if_neg hd]
        exact ih
    · rw [if_neg hp]
      by_cases hd : x.default_scheme = true
      · rw [if_pos hd, if_pos hd, List.length_cons, List.length_cons]
        omega
      · rw [if_neg hd, if_neg hd]
        exact ih

theorem calscheme_eta (b : CalScheme) (p : Nat) (h : b.pk = some p) :
    ({ b with pk := some p } : CalScheme) = b := by
  cases b
  simp_all

theorem pairwise_pk_clear (l : List CalScheme)
    (h : l.Pairwise (fun x y => x.pk ≠ y.pk)) :
    (l.map (fun x => { x with default_scheme := false })).Pairwise
      (fun x y => x.pk ≠ y.pk) :=
  List.Pairwise.map (fun x : CalScheme => { x with default_scheme := false })
    (fun _ _ hab => hab) h

theorem raw_save_cal_wf (s : St) (c : CalScheme) (hwf : cal_table_wf s) :
    cal_table_wf (raw_save_cal s c) := by
  obtain ⟨hpw, hbound⟩ := hwf
  unfold raw_save_cal
  split
  case h_1 p hpk =>
    have hfpk : ∀ z : CalScheme, (if z.pk = some p then c else z).pk = z.pk := by
      intro z
      by_cases h : z.pk = some p
      · rw [if_pos h, hpk, h]
      · rw [if_neg h]
    by_cases hany : s.calschemes.any (fun x => decide (x.pk = some p)) = true
    · rw [if_pos hany]
      constructor
      · exact hpw.map _ (fun a b hab => by rw [hfpk, hfpk]; exact hab)
      · intro x hx
        obtain ⟨z, hz, rfl⟩ := List.mem_map.mp hx
        rw [hfpk]
        exact hbound z hz
    · rw [if_neg hany]
      constructor
      · rw [List.pairwise_append]
        refine ⟨hpw, List.pairwise_singleton _ _, ?_⟩
        intro x hx y hy
        rw [List.mem_singleton] at hy
        subst hy
        rw [hpk]
        intro hh
        apply hany
        rw [List.any_eq_true]
        exact ⟨x, hx, by simp [hh]⟩
      · intro x hx
        rw [List.mem_append] at hx
        cases hx with
        | inl h =>
          obtain ⟨q, hq, hlt⟩ := hbound x h
          exact ⟨q, hq, by show q < max s.nextPk (p + 1); omega⟩
        | inr h =>
          rw [List.mem_singleton] at h
          subst h
          exact ⟨p, hpk, by show p < max s.nextPk (p + 1); omega⟩
  case h_2 hpk =>
    constructor
    · rw [List.pairwise_append]
      refine ⟨hpw, List.pairwise_singleton _ _, ?_⟩
      intro x hx y hy
      rw [List.mem_singleton] at hy
      subst hy
      obtain ⟨q, hq, hlt⟩ := hbound x hx
      show x.pk ≠ some s.nextPk
      rw [hq]
      intro hh
      rw [Option.some_inj] at hh
      omega
    · intro x hx
      rw [List.mem_append] at hx
      cases hx with
      | inl h =>
        obtain ⟨q, hq, hlt⟩ := hbound x h
        exact ⟨q, hq, by show q < s.nextPk + 1; omega⟩
      | inr h =>
        rw [List.mem_singleton] at h
        subst h
        exact ⟨s.nextPk, rfl, by show s.nextPk < s.nextPk + 1; omega⟩

theorem clear_cal_wf (s : St) (hwf : cal_table_wf s) :
    cal_table_wf { s with
      calschemes := s.calschemes.map (fun x => { x with default_scheme := false }) } := by
  obtain ⟨hpw, hbound⟩ := hwf
  constructor
  · exact pairwise_pk_clear _ hpw
  · intro x hx
    obtain ⟨z, hz, rfl⟩ := List.mem_map.mp hx
    exact hbound z hz

theorem cal_save_preserves_wf (s : St) (c : CalScheme) (hwf : cal_table_wf s) :
    cal_table_wf (calendar_scheme_save s c) := by
  unfold calendar_scheme_save
  by_cases hd : c.default_scheme = true
  · rw [if_pos hd]
    exact raw_save_cal_wf _ _ (clear_cal_wf s hwf)
  · rw [if_neg hd]
    exact raw_save_cal_wf _ _ hwf

theorem raw_save_cal_cs_found (s : St) (c : CalScheme) (p : Nat)
    (hpk : c.pk = some p)
    (hany : s.calschemes.any (fun x => decide (x.pk = some p)) = true) :
    (raw_save_cal s c).calschemes =
      s.calschemes.map (fun x => if x.pk = some p then c else x) := by
  unfold raw_save_cal
  split
  case h_1 q hq =>
    rw [hpk, Option.some_inj] at hq
    subst hq
    rw [if_pos hany]
  case h_2 hq =>
    rw [hpk] at hq
    exact Option.noConfusion hq

theorem raw_save_cal_cs_new (s : St) (c : CalScheme) (p : Nat)
    (hpk : c.pk = some p)
    (hany : ¬ s.calschemes.any (fun x => decide (x.pk = some p)) = true) :
    (raw_save_cal s c).calschemes = s.calschemes ++ [c] := by
  unfold raw_save_cal
  split
  case h_1 q hq =>
    rw [hpk, Option.some_inj] at hq
    subst hq
    rw [if_neg hany]
  case h_2 hq =>
    rw [hpk] at hq
    exact Option.noConfusion hq

theorem raw_save_cal_cs_fresh (s : St) (c : CalScheme)
    (hpk : c.pk = none) :
    (raw_save_cal s c).calschemes = s.calschemes ++ [{ c with pk := some s.nextPk }] := by
  unfold raw_save_cal
  split
  case h_1 q hq =>
    rw [hpk] at hq
    exact Option.noConfusion hq
  case h_2 hq => rfl

theorem cal_save_cs_default_found (s : St) (c : CalScheme) (p : Nat)
    (hc : c.default_scheme = true) (hpk : c.pk = some p)
    (hany : (s.calschemes.map (fun x => { x with default_scheme := false })).any
      (fun x => decide (x.pk = some p)) = true) :
    (calendar_scheme_save s c).calschemes =
      (s.calschemes.map (fun x => { x with default_scheme := false })).map
        (fun x => if x.pk = some p then c else x) := by
  unfold calendar_scheme_save
  rw [if_pos hc, raw_save_cal_cs_found _ _ _ hpk hany]

theorem cal_save_cs_default_new (s : St) (c : CalScheme) (p : Nat)
    (hc : c.default_scheme = true) (hpk : c.pk = some p)
    (hany : ¬ (s.calschemes.map (fun x => { x with default_scheme := false })).any
      (fun x => decide (x.pk = some p)) = true) :
    (calendar_scheme_save s c).calschemes =
      (s.calschemes.map (fun x => { x with default_scheme := false })) ++ [c] := by
  unfold calendar_scheme_save
  rw [if_pos hc, raw_save_cal_cs_new _ _ _ hpk hany]

theorem cal_save_cs_default_fresh (s : St) (c : CalScheme)
    (hc : c.default_scheme = true) (hpk : c.pk = none) :
    (calendar_scheme_save s c).calschemes =
      (s.calschemes.map (fun x => { x with default_scheme := false })) ++
        [{ c with pk := some s.nextPk }] := by
  unfold calendar_scheme_save
  rw [if_pos hc, raw_save_cal_cs_fresh _ _ hpk]

theorem cal_save_cs_plain (s : St) (c : CalScheme)
    (hc : c.default_scheme = false) :
    (calendar_scheme_save s c).calschemes = (raw_save_cal s c).calschemes := by
  unfold calendar_scheme_save
  rw [if_neg (by simp [hc])]

/-- C6: saving scheme `a` with the default flag set and then scheme `b`
with the default flag set leaves exactly one stored default scheme,
namely `b`'s row; moreover no save can take a well-formed store with at
most one default scheme into a store with two, so a state with two
simultaneous defaults is unreachable. -/
theorem c6_single_default (s : St) (a b : CalScheme)
    (hwf : cal_table_wf s) (ha : a.default_scheme = true) (hb : b.default_scheme = true) :
    (∃ q, (calendar_scheme_save (calendar_scheme_save s a) b).calschemes.filter
        (fun x => x.default_scheme) = [{ b with pk := some q }]) ∧
    (∀ s' c, cal_table_wf s' → at_most_one_default s' →
      at_most_one_default (calendar_scheme_save s' c)) := by
  constructor
  · obtain ⟨hpw1, hbound1⟩ := cal_save_preserves_wf s a hwf
    set t1 := calendar_scheme_save s a with ht1
    cases hpk : b.pk with
    | some p =>
      by_cases hany : (t1.calschemes.map (fun x => { x with default_scheme := false })).any
          (fun x => decide (x.pk = some p)) = true
      · rw [cal_save_cs_default_found _ _ _ hb hpk hany,
            filter_default_update_all_false _ _ _ (all_false_clear _) hb]
        have h1 : (t1.calschemes.map (fun x => { x with default_scheme := false })).countP
            (fun x => decide (x.pk = some p)) = 1 :=
          le_antisymm (countP_pk_le_one _ _ (pairwise_pk_clear _ hpw1))
            (countP_pk_pos_of_any _ _ hany)
        rw [h1]
        exact ⟨p, by rw [List.replicate_one, calscheme_eta b p hpk]⟩
      · rw [cal_save_cs_default_new _ _ _ hb hpk hany, List.filter_append,
            filter_default_clear, List.nil_append]
        refine ⟨p, ?_⟩
        rw [calscheme_eta b p hpk]
        simp [hb]
    | none =>
      rw [cal_save_cs_default_fresh _ _ hb hpk, List.filter_append,
          filter_default_clear, List.nil_append]
      exact ⟨t1.nextPk, by simp [hb]⟩
  · intro s' c hwf' hmo
    have hcF : c.default_scheme = true ∨ c.default_scheme = false := by
      cases c.default_scheme
      · exact Or.inr rfl
      · exact Or.inl rfl
    unfold at_most_one_default
    cases hcF with
    | inl hcd =>
      cases hpk : c.pk with
      | some p =>
        by_cases hany : (s'.calschemes.map (fun x => { x with default_scheme := false })).any
            (fun x => decide (x.pk = some p)) = true
        · rw [cal_save_cs_default_found _ _ _ hcd hpk hany,
              filter_default_update_all_false _ _ _ (all_false_clear _) hcd,
              List.length_replicate]
          exact countP_pk_le_one _ _ (pairwise_pk_clear _ hwf'.1)
        · rw [cal_save_cs_default_new _ _ _ hcd hpk hany, List.filter_append,
              filter_default_clear, List.nil_append]
          simp [hcd]
      | none =>
        rw [cal_save_cs_default_fresh _ _ hcd hpk, List.filter_append,
            filter_default_clear, List.nil_append]
        simp [hcd]
    | inr hcd =>
      rw [cal_save_cs_plain _ _ hcd]
      cases hpk : c.pk with
      | some p =>
        by_cases hany : s'.calschemes.any (fun x => decide (x.pk = some p)) = true
        · rw [raw_save_cal_cs_found _ _ _ hpk hany]
          exact le_trans (filter_default_update_le s'.calschemes c p hcd) hmo
        · rw [raw_save_cal_cs_new _ _ _ hpk hany, List.filter_append]
          have hone : List.filter (fun x => x.default_scheme) [c] = [] := by
            simp [hcd]
          rw [hone, List.append_nil]
          exact hmo
      | none =>
        rw [raw_save_cal_cs_fresh _ _ hpk, List.filter_append]
        have hone : List.filter (fun x => x.default_scheme)
            [{ c with pk := some s'.nextPk }] = [] := by
          simp [hcd]
        rw [hone, List.append_nil]
        exact hmo

theorem c6_single_default_witness :
    (∃ q, (calendar_scheme_save (calendar_scheme_save
        ⟨[], [], [], [], [], [], [], 0⟩
        ⟨none, "a", 1, 1, true⟩) ⟨none, "b", 2, 2, true⟩).calschemes.filter
        (fun x => x.default_scheme) =
          [{ (⟨none, "b", 2, 2, true⟩ : CalScheme) with pk := some q }]) ∧
    (∀ s' c, cal_table_wf s' → at_most_one_default s' →
      at_most_one_default (calendar_scheme_save s' c)) :=
  c6_single_default ⟨[], [], [], [], [], [], [], 0⟩
    ⟨none, "a", 1, 1, true⟩ ⟨none, "b", 2, 2, true⟩
    ⟨List.Pairwise.nil, by simp⟩ rfl rfl

theorem filter_nonpk_update (l : List CalScheme) (c : CalScheme) (p : Nat)
    (hc : c.pk = some p) :
    (l.map (fun x => if x.pk = some p then c else x)).filter
        (fun x => !decide (x.pk = some p)) =
      l.filter (fun x => !decide (x.pk = some p)) := by
  induction l with
  | nil => rfl
  | cons x t ih =>
    by_cases hp : x.pk = some p
    · simp only [List.map_cons, if_pos hp, List.filter_cons, hc, hp]
      simp [ih, hc]
    · simp only [List.map_cons, if_neg hp, List.filter_cons]
      simp [hp, ih]

/-- C10: saving a scheme with the default flag unset leaves every other
stored scheme row (in particular its default flag) untouched, and
un-flagging the store's only default scheme is permitted and yields a
store with no default scheme at all. -/
theorem c10_plain_save_frame (s : St) (c : CalScheme) (p : Nat)
    (hc : c.default_scheme = false) (hpk : c.pk = some p) :
    (calendar_scheme_save s c).calschemes.filter (fun x => !decide (x.pk = some p)) =
      s.calschemes.filter (fun x => !decide (x.pk = some p)) ∧
    ((∀ x ∈ s.calschemes, x.default_scheme = true → x.pk = some p) →
      ∀ x ∈ (calendar_scheme_save s c).calschemes, x.default_scheme = false) := by
  rw [cal_save_cs_plain _ _ hc]
  by_cases hany : s.calschemes.any (fun x => decide (x.pk = some p)) = true
  · rw [raw_save_cal_cs_found _ _ _ hpk hany]
    constructor
    · exact filter_nonpk_update _ _ _ hpk
    · intro hdef x hx
      obtain ⟨z, hz, rfl⟩ := List.mem_map.mp hx
      by_cases hzp : z.pk = some p
      · rw [if_pos hzp]
        exact hc
      · rw [if_neg hzp]
        by_cases hzd : z.default_scheme = true
        · exact absurd (hdef z hz hzd) hzp
        · cases hzz : z.default_scheme
          · rfl
          · exact absurd hzz hzd
  · rw [raw_save_cal_cs_new _ _ _ hpk hany]
    constructor
    · rw [List.filter_append]
      have hone : List.filter (fun x => !decide (x.pk = some p)) [c] = [] := by
        simp [hpk]
      rw [hone, List.append_nil]
    · intro hdef x hx
      rw [List.mem_append] at hx
      cases hx with
      | inl h =>
        by_cases hzd : x.default_scheme = true
        · exfalso
          apply hany
          rw [List.any_eq_true]
          exact ⟨x, h, by simp [hdef x h hzd]⟩
        · cases hzz : x.default_scheme
          · rfl
          · exact absurd hzz hzd
      | inr h =>
        rw [List.mem_singleton] at h
        subst h
        exact hc

theorem c10_plain_save_frame_witness :
    ((calendar_scheme_save
        ⟨[⟨some 1, "x", 1, 1, true⟩, ⟨some 2, "y", 1, 1, false⟩], [], [], [], [], [], [], 3⟩
        ⟨some 1, "x", 1, 1, false⟩).calschemes.filter (fun x => !decide (x.pk = some 1)) =
      ([⟨some 1, "x", 1, 1, true⟩, ⟨some 2, "y", 1, 1, false⟩] : List CalScheme).filter
        (fun x => !decide (x.pk = some 1)) ∧
    ((∀ x ∈ ([⟨some 1, "x", 1, 1, true⟩, ⟨some 2, "y", 1, 1, false⟩] : List CalScheme),
        x.default_scheme = true → x.pk = some 1) →
      ∀ x ∈ (calendar_scheme_save
        ⟨[⟨some 1, "x", 1, 1, true⟩, ⟨some 2, "y", 1, 1, false⟩], [], [], [], [], [], [], 3⟩
        ⟨some 1, "x", 1, 1, false⟩).calschemes, x.default_scheme = false)) :=
  c10_plain_save_frame
    ⟨[⟨some 1, "x", 1, 1, true⟩, ⟨some 2, "y", 1, 1, false⟩], [], [], [], [], [], [], 3⟩
    ⟨some 1, "x", 1, 1, false⟩ 1 rfl rfl

/-- C8 (code bug): `Worker.is_active` returns `true` for a worker whose
`date_end` lies strictly in the past and `false` for one whose
`date_end` lies in the future — the opposite of the documented contract
("if date_end is not set or set in future - worker still active; if
date_end is set in past - worker is resigned"); the unset case agrees. -/
theorem c8_is_active_inverted :
    worker_is_active ⟨some 1, 1, 1, 0, some 1⟩ 2 = true ∧
    worker_is_active ⟨some 1, 1, 1, 0, some 5⟩ 2 = false ∧
    worker_is_active ⟨some 1, 1, 1, 0, none⟩ 2 = true := by
  decide

theorem c2_month_resolution_witness :
    (get_month_working_days ⟨"std", 8, 8, 8, 8, 8, 0, 0⟩
        [⟨⟨2016, 1, 4⟩, 0, none⟩] 2016 1 ⟨2016, 1, 2⟩).map (fun e => e.dt) =
      (List.range' 1 (daysInMonth 2016 1)).map (fun d => (⟨2016, 1, d⟩ : Ymd)) ∧
    ∀ e ∈ get_month_working_days ⟨"std", 8, 8, 8, 8, 8, 0, 0⟩
        [⟨⟨2016, 1, 4⟩, 0, none⟩] 2016 1 ⟨2016, 1, 2⟩,
      e.hours = match ([⟨⟨2016, 1, 4⟩, 0, none⟩] : List YearlyCalendarSchemeRow).find?
          (fun r => decide (r.date = e.dt)) with
        | some r => r.hours
        | none => wcs_hours ⟨"std", 8, 8, 8, 8, 8, 0, 0⟩ (pyWeekday e.dt) :=
  c2_month_resolution ⟨"std", 8, 8, 8, 8, 8, 0, 0⟩ [⟨⟨2016, 1, 4⟩, 0, none⟩]
    2016 1 ⟨2016, 1, 2⟩ (by decide) (by decide) (by decide)

/-! ### Lemmas: WorkLogMigration -/
/-- C5 (amended): the commit guards hold — saving an instance with the
commit flag set raises ValidationError (and leaves the store untouched)
when the instance has never been persisted, and when the stored version
is already committed.  The guard however only fires for saves with
commit = true (see the counterexample for the unguarded path). -/
theorem c5_commit_guards :
    (∀ (s : St) (i : Migration), i.commit = true → i.pk = none →
      work_log_migration_save s i =
        (s, Except.error (VErr.validation ("you have to save migration without commit first")))) ∧
    (∀ (s : St) (i : Migration) (p : Nat) (m : Migration), i.commit = true → i.pk = some p →
      s.migrations.find? (fun x => decide (x.pk = some p)) = some m → m.commit = true →
      work_log_migration_save s i =
        (s, Except.error (VErr.validation ("you can not change committed migrations!")))) := by
  constructor
  · intro s i hc hpk
    unfold work_log_migration_save work_log_migration_clean
    rw [hc, hpk]
    rfl
  · intro s i p m hc hpk hfind hm
    unfold work_log_migration_save work_log_migration_clean
    simp only [hc, hpk, hfind, hm]
    rfl

theorem c5_commit_guards_witness :
    work_log_migration_save ⟨[], [], [], [], [], [], [], 0⟩ ⟨none, 1, 2, 5, true⟩ =
      (⟨[], [], [], [], [], [], [], 0⟩,
        Except.error (VErr.validation ("you have to save migration without commit first"))) ∧
    work_log_migration_save ⟨[], [], [], [], [], [⟨some 1, 1, 2, 5, true⟩], [], 2⟩
        ⟨some 1, 1, 2, 7, true⟩ =
      (⟨[], [], [], [], [], [⟨some 1, 1, 2, 5, true⟩], [], 2⟩,
        Except.error (VErr.validation ("you can not change committed migrations!"))) :=
  ⟨c5_commit_guards.1 _ _ rfl rfl,
   c5_commit_guards.2 _ _ 1 ⟨some 1, 1, 2, 5, true⟩ rfl rfl (by decide) rfl⟩

/-- C5 counterexample: once the stored migration is committed, a save
call with commit = false is not guarded at all: it succeeds and persists
arbitrary changes to the committed row (here moving the cutover date to
7 and even resetting the commit flag), refuting the claim that no save
call persists any further change to a committed migration. -/
theorem c5_commit_guards_counterexample :
    (work_log_migration_save ⟨[], [], [], [], [], [⟨some 1, 1, 2, 5, true⟩], [], 2⟩
        ⟨some 1, 1, 2, 7, false⟩).1.migrations = [⟨some 1, 1, 2, 7, false⟩] ∧
    (work_log_migration_save ⟨[], [], [], [], [], [⟨some 1, 1, 2, 5, true⟩], [], 2⟩
        ⟨some 1, 1, 2, 7, false⟩).2 = Except.ok ⟨some 1, 1, 2, 7, false⟩ :=
  ⟨rfl, rfl⟩

theorem migration_step_point (ow nw dfrom : Nat) (rm : RoleMig) (t : List RoleMig)
    (w : WorkLog)
    (hch : ow = nw → ∀ b ∈ rm :: t, rm.new_role ≠ b.old_role) :
    (fun w => if w.worker = ow ∧ dfrom ≤ w.date then
        match t.find? (fun x => decide (x.old_role = w.role)) with
        | some x => { w with worker := nw, role := x.new_role }
        | none => w
      else w)
      (if w.worker = ow ∧ w.role = rm.old_role ∧ dfrom ≤ w.date
        then { w with worker := nw, role := rm.new_role } else w) =
      (if w.worker = ow ∧ dfrom ≤ w.date then
        match (rm :: t).find? (fun x => decide (x.old_role = w.role)) with
        | some x => { w with worker := nw, role := x.new_role }
        | none => w
      else w) := by
  dsimp only
  by_cases h1 : w.worker = ow
  · by_cases h2 : dfrom ≤ w.date
    · by_cases h3 : w.role = rm.old_role
      · rw [if_pos (show w.worker = ow ∧ w.role = rm.old_role ∧ dfrom ≤ w.date
              from ⟨h1, h3, h2⟩),
            if_pos (show w.worker = ow ∧ dfrom ≤ w.date from ⟨h1, h2⟩),
            List.find?_cons_of_pos _ (by simp [h3])]
        dsimp only
        by_cases how : ow = nw
        · have hft : t.find? (fun x => decide (x.old_role = rm.new_role)) = none := by
            rw [List.find?_eq_none]
            intro x hx
            simp only [decide_eq_true_eq]
            intro hh
            exact hch how x (List.mem_cons_of_mem _ hx) hh.symm
          rw [if_pos (show nw = ow ∧ dfrom ≤ w.date from ⟨how.symm, h2⟩), hft]
        · rw [if_neg (show ¬(nw = ow ∧ dfrom ≤ w.date) from fun hco => how hco.1.symm)]
      · rw [if_neg (show ¬(w.worker = ow ∧ w.role = rm.old_role ∧ dfrom ≤ w.date)
              from fun hco => h3 hco.2.1),
            if_pos (show w.worker = ow ∧ dfrom ≤ w.date from ⟨h1, h2⟩),
            List.find?_cons_of_neg _ (by
              simp only [decide_eq_true_eq]
              exact fun hh => h3 hh.symm),
            if_pos (show w.worker = ow ∧ dfrom ≤ w.date from ⟨h1, h2⟩)]
    · rw [if_neg (show ¬(w.worker = ow ∧ w.role = rm.old_role ∧ dfrom ≤ w.date)
            from fun hco => h2 hco.2.2),
          if_neg (show ¬(w.worker = ow ∧ dfrom ≤ w.date) from fun hco => h2 hco.2),
          if_neg (show ¬(w.worker = ow ∧ dfrom ≤ w.date) from fun hco => h2 hco.2)]
  · rw [if_neg (show ¬(w.worker = ow ∧ w.role = rm.old_role ∧ dfrom ≤ w.date)
          from fun hco => h1 hco.1),
        if_neg (show ¬(w.worker = ow ∧ dfrom ≤ w.date) from fun hco => h1 hco.1),
        if_neg (show ¬(w.worker = ow ∧ dfrom ≤ w.date) from fun hco => h1 hco.1)]

theorem migration_fold_eq (ow nw dfrom : Nat) (rms : List RoleMig) (wls : List WorkLog)
    (hnd : (rms.map (fun rm => rm.old_role)).Nodup)
    (hchain : ow = nw → ∀ rm ∈ rms, ∀ rm' ∈ rms, rm.new_role ≠ rm'.old_role) :
    rms.foldl (fun wlsa rm => wlsa.map (fun w =>
        if w.worker = ow ∧ w.role = rm.old_role ∧ dfrom ≤ w.date
        then { w with worker := nw, role := rm.new_role } else w)) wls =
      wls.map (fun w =>
        if w.worker = ow ∧ dfrom ≤ w.date then
          match rms.find? (fun rm => decide (rm.old_role = w.role)) with
          | some rm => { w with worker := nw, role := rm.new_role }
          | none => w
        else w) := by
  induction rms generalizing wls with
  | nil =>
    simp
  | cons rm t ih =>
    have hndt : (t.map (fun rm => rm.old_role)).Nodup := by
      rw [List.map_cons, List.nodup_cons] at hnd
      exact hnd.2
    have hcht : ow = nw → ∀ a ∈ t, ∀ b ∈ t, a.new_role ≠ b.old_role := by
      intro h a ha b hb
      exact hchain h a (List.mem_cons_of_mem _ ha) b (List.mem_cons_of_mem _ hb)
    rw [List.foldl_cons, ih _ hndt hcht, List.map_map]
    apply List.map_congr_left
    intro w hw
    exact migration_step_point ow nw dfrom rm t w
      (fun h b hb => hchain h rm (List.mem_cons_self rm t) b hb)

theorem filterMap_congr' {α β : Type} (l : List α) (f g : α → Option β)
    (h : ∀ a ∈ l, f a = g a) : l.filterMap f = l.filterMap g := by
  induction l with
  | nil => rfl
  | cons a t ih =>
    rw [List.filterMap_cons, List.filterMap_cons, h a (List.mem_cons_self a t),
        ih (fun x hx => h x (List.mem_cons_of_mem _ hx))]

theorem filterMap_some_eq_map {α β : Type} (g : α → β) (l : List α) :
    l.filterMap (fun a => some (g a)) = l.map g := by
  induction l with
  | nil => rfl
  | cons a t ih =>
    rw [List.filterMap_cons, List.map_cons]
    simpa using ih

theorem map_filter_as_filterMap {α β : Type} (g : α → β) (q : β → Bool) (l : List α) :
    (l.map g).filter q = l.filterMap (fun a => if q (g a) = true then some (g a) else none) := by
  induction l with
  | nil => rfl
  | cons a t ih =>
    rw [List.map_cons, List.filter_cons, List.filterMap_cons]
    by_cases hq : q (g a) = true
    · simp only [hq, if_true, ih]
    · simp only [hq, if_false, Bool.false_eq_true, ih]

theorem migration_delete_eq (ow nw dfrom : Nat) (rms : List RoleMig)
    (wls : List WorkLog) :
    (if ow = nw then
        wls.map (fun w =>
          if w.worker = ow ∧ dfrom ≤ w.date then
            match rms.find? (fun rm => decide (rm.old_role = w.role)) with
            | some rm => { w with worker := nw, role := rm.new_role }
            | none => w
          else w)
      else (wls.map (fun w =>
          if w.worker = ow ∧ dfrom ≤ w.date then
            match rms.find? (fun rm => decide (rm.old_role = w.role)) with
            | some rm => { w with worker := nw, role := rm.new_role }
            | none => w
          else w)).filter (fun w =>
        !(decide (w.worker = ow) && decide (dfrom ≤ w.date)))) =
      claimed_migration_result ow nw dfrom rms wls := by
  unfold claimed_migration_result
  by_cases how : ow = nw
  · rw [if_pos how, ← filterMap_some_eq_map]
    apply filterMap_congr'
    intro w hw
    by_cases hcond : w.worker = ow ∧ dfrom ≤ w.date
    · rw [if_pos hcond, if_pos hcond]
      cases hf : rms.find? (fun rm => decide (rm.old_role = w.role)) with
      | some rm => rfl
      | none => rw [if_pos how]
    · rw [if_neg hcond, if_neg hcond]
  · rw [if_neg how, map_filter_as_filterMap]
    apply filterMap_congr'
    intro w hw
    by_cases hcond : w.worker = ow ∧ dfrom ≤ w.date
    · rw [if_pos hcond]
      cases hf : rms.find? (fun rm => decide (rm.old_role = w.role)) with
      | some rm =>
        rw [if_pos hcond]
        simp only [hf]
        rw [if_pos ?keep]
        case keep =>
          dsimp only
          have hno : decide (nw = ow) = false := decide_eq_false (fun hh => how hh.symm)
          simp [hno]
      | none =>
        rw [if_pos hcond]
        simp only [hf]
        rw [if_neg ?drop, if_neg how]
        case drop =>
          simp [hcond.1, hcond.2]
    · rw [if_neg hcond, if_neg hcond]
      rw [if_pos ?keep2]
      case keep2 =>
        by_cases hA : w.worker = ow
        · have hB : ¬ dfrom ≤ w.date := fun hb => hcond ⟨hA, hb⟩
          simp [hB]
        · simp [hA]

theorem migration_clean_commit_shape (s : St) (i : Migration) (p : Nat) (m : Migration)
    (hc : i.commit = true) (hpk : i.pk = some p)
    (hfind : s.migrations.find? (fun x => decide (x.pk = some p)) = some m)
    (hm : m.commit = false) :
    work_log_migration_clean s i =
      ({ s with worklogs :=
        (if i.old_worker = i.new_worker then
          (s.roleMigs.filter (fun rm => decide (rm.migration = p))).foldl
            (fun wls rm => wls.map (fun w =>
              if w.worker = i.old_worker ∧ w.role = rm.old_role ∧ i.date_migrate_from ≤ w.date
              then { w with worker := i.new_worker, role := rm.new_role } else w)) s.worklogs
        else ((s.roleMigs.filter (fun rm => decide (rm.migration = p))).foldl
            (fun wls rm => wls.map (fun w =>
              if w.worker = i.old_worker ∧ w.role = rm.old_role ∧ i.date_migrate_from ≤ w.date
              then { w with worker := i.new_worker, role := rm.new_role } else w)) s.worklogs).filter
          (fun w => !(decide (w.worker = i.old_worker) && decide (i.date_migrate_from ≤ w.date)))) },
      none) := by
  unfold work_log_migration_clean
  simp only [hc, hpk, hfind, hm]
  rfl

/-- C3 (amended): committing a stored, not-yet-committed migration
applies the child role migrations as sequential reassignment passes over
the work logs and then deletes the unmatched old-worker rows when the
worker changes.  Provided the children's old_roles are pairwise distinct
and, when old_worker = new_worker, no child's new_role occurs among the
old_roles, this equals the claimed per-row outcome: a row
(worker = old_worker, date >= date_migrate_from) matched by a child
(old_role, new_role) becomes (new_worker, new_role); such a row matched
by no child is deleted if old_worker differs from new_worker and kept
otherwise; rows dated before the cutover or of other workers are
unchanged.  Without those provisos the sequential passes can chain (see
the counterexample), which the claim's wording does not allow. -/
theorem c3_migration_commit (s : St) (i : Migration) (p : Nat) (m : Migration)
    (hc : i.commit = true) (hpk : i.pk = some p)
    (hfind : s.migrations.find? (fun x => decide (x.pk = some p)) = some m)
    (hm : m.commit = false)
    (hnd : ((s.roleMigs.filter (fun rm => decide (rm.migration = p))).map
      (fun rm => rm.old_role)).Nodup)
    (hchain : i.old_worker = i.new_worker →
      ∀ a ∈ s.roleMigs.filter (fun rm => decide (rm.migration = p)),
      ∀ b ∈ s.roleMigs.filter (fun rm => decide (rm.migration = p)),
        a.new_role ≠ b.old_role) :
    (work_log_migration_save s i).1.worklogs =
      claimed_migration_result i.old_worker i.new_worker i.date_migrate_from
        (s.roleMigs.filter (fun rm => decide (rm.migration = p))) s.worklogs ∧
    (work_log_migration_save s i).2 = Except.ok i := by
  have hshape := migration_clean_commit_shape s i p m hc hpk hfind hm
  have hany : s.migrations.any (fun x => decide (x.pk = some p)) = true := by
    rw [List.any_eq_true]
    refine ⟨m, List.mem_of_find?_eq_some hfind, ?_⟩
    have hfs := List.find?_some hfind
    exact hfs
  unfold work_log_migration_save
  rw [hshape]
  unfold raw_save_migration
  simp only [hpk, hany]
  constructor
  · rw [migration_fold_eq _ _ _ _ _ hnd hchain]
    exact migration_delete_eq i.old_worker i.new_worker i.date_migrate_from
      (s.roleMigs.filter (fun rm => decide (rm.migration = p))) s.worklogs
  · rfl

/-- C3 counterexample: role migrations are sequential passes, so with
old_worker = new_worker a row already reassigned by one RoleMigration is
re-matched by a later one.  Here the stored migration (worker 1 to
worker 1, cutover 0) has children (role 10 to 11) and (role 11 to 12):
the claim says the role-10 row ends up referencing role 11, but the code
moves it on to role 12. -/
theorem c3_migration_commit_counterexample :
    (work_log_migration_save
      ⟨[], [], [], [], [⟨1, 1, 10, 5, 8⟩], [⟨some 1, 1, 1, 0, false⟩],
        [⟨1, 1, 10, 11⟩, ⟨2, 1, 11, 12⟩], 3⟩
      ⟨some 1, 1, 1, 0, true⟩).1.worklogs = [⟨1, 1, 12, 5, 8⟩] ∧
    (⟨1, 1, 11, 5, 8⟩ : WorkLog) ∉
      (work_log_migration_save
        ⟨[], [], [], [], [⟨1, 1, 10, 5, 8⟩], [⟨some 1, 1, 1, 0, false⟩],
          [⟨1, 1, 10, 11⟩, ⟨2, 1, 11, 12⟩], 3⟩
        ⟨some 1, 1, 1, 0, true⟩).1.worklogs := by
  decide

theorem c3_migration_commit_witness :
    (work_log_migration_save
      ⟨[], [], [], [], [⟨1, 1, 10, 5, 8⟩, ⟨2, 1, 10, 3, 8⟩, ⟨3, 1, 20, 6, 8⟩, ⟨4, 2, 10, 6, 8⟩],
        [⟨some 1, 1, 2, 5, false⟩], [⟨1, 1, 10, 11⟩], 3⟩
      ⟨some 1, 1, 2, 5, true⟩).1.worklogs =
      claimed_migration_result 1 2 5 [⟨1, 1, 10, 11⟩]
        [⟨1, 1, 10, 5, 8⟩, ⟨2, 1, 10, 3, 8⟩, ⟨3, 1, 20, 6, 8⟩, ⟨4, 2, 10, 6, 8⟩] ∧
    (work_log_migration_save
      ⟨[], [], [], [], [⟨1, 1, 10, 5, 8⟩, ⟨2, 1, 10, 3, 8⟩, ⟨3, 1, 20, 6, 8⟩, ⟨4, 2, 10, 6, 8⟩],
        [⟨some 1, 1, 2, 5, false⟩], [⟨1, 1, 10, 11⟩], 3⟩
      ⟨some 1, 1, 2, 5, true⟩).2 = Except.ok ⟨some 1, 1, 2, 5, true⟩ :=
  c3_migration_commit
    ⟨[], [], [], [], [⟨1, 1, 10, 5, 8⟩, ⟨2, 1, 10, 3, 8⟩, ⟨3, 1, 20, 6, 8⟩, ⟨4, 2, 10, 6, 8⟩],
      [⟨some 1, 1, 2, 5, false⟩], [⟨1, 1, 10, 11⟩], 3⟩
    ⟨some 1, 1, 2, 5, true⟩ 1 ⟨some 1, 1, 2, 5, false⟩ rfl rfl (by decide) rfl
    (by decide) (fun h => absurd h (by decide))

/-! ### Lemmas: the PositionRolesLog ledger -/
theorem open_count_eq_countP (s : St) (a b : Nat) :
    open_count s a b = s.prlogs.countP (open_pred a b) :=
  (List.countP_eq_length_filter _ _).symm

theorem map_if_pk_id (l : List PRLog) (q : Nat) (x : PRLog)
    (h : ∀ e ∈ l, e.pk ≠ q) :
    l.map (fun e => if e.pk = q then x else e) = l := by
  induction l with
  | nil => rfl
  | cons e t ih =>
    rw [List.map_cons, if_neg (h e (List.mem_cons_self e t)),
        ih (fun e' he' => h e' (List.mem_cons_of_mem _ he'))]

theorem countP_update_pk (l : List PRLog) (lg x : PRLog) (p : PRLog → Bool)
    (hnd : (l.map (fun e => e.pk)).Nodup) (hmem : lg ∈ l) :
    (l.map (fun e => if e.pk = lg.pk then x else e)).countP p +
        (if p lg = true then 1 else 0) =
      l.countP p + (if p x = true then 1 else 0) := by
  induction l with
  | nil => cases hmem
  | cons e t ih =>
    rw [List.map_cons, List.nodup_cons] at hnd
    rcases List.mem_cons.mp hmem with heq | hmem'
    · subst heq
      rw [List.map_cons, if_pos rfl,
          map_if_pk_id t lg.pk x (fun e' he' hpk => hnd.1 (hpk ▸ List.mem_map_of_mem _ he')),
          List.countP_cons, List.countP_cons]
      omega
    · have hne : e.pk ≠ lg.pk := by
        intro hpk
        exact hnd.1 (hpk ▸ List.mem_map_of_mem (fun e' => e'.pk) hmem')
      rw [List.map_cons, if_neg hne, List.countP_cons, List.countP_cons]
      have := ih hnd.2 hmem'
      omega

theorem map_pk_update_pk (l : List PRLog) (q : Nat) (x : PRLog) (hx : x.pk = q) :
    (l.map (fun e => if e.pk = q then x else e)).map (fun e => e.pk) =
      l.map (fun e => e.pk) := by
  rw [List.map_map]
  apply List.map_congr_left
  intro e he
  by_cases hq : e.pk = q
  · simp [hq, hx]
  · simp [hq]

theorem countP_clear_map (l : List PRLog) (posPk now a b : Nat) :
    (l.map (fun e => if e.position = posPk ∧ e.date_end = none
        then { e with date_end := some now } else e)).countP (open_pred a b) =
      if a = posPk then 0 else l.countP (open_pred a b) := by
  induction l with
  | nil => simp
  | cons e t ih =>
    rw [List.map_cons, List.countP_cons, List.countP_cons, ih]
    by_cases hp : a = posPk
    · rw [if_pos hp, if_pos hp]
      have hz : (if open_pred a b (if e.position = posPk ∧ e.date_end = none
          then { e with date_end := some now } else e) = true then 1 else 0) = 0 := by
        by_cases hc : e.position = posPk ∧ e.date_end = none
        · rw [if_pos hc]
          simp [open_pred]
        · rw [if_neg hc]
          simp only [open_pred, decide_eq_true_eq]
          rw [if_neg]
          intro hcc
          exact hc ⟨hp ▸ hcc.1, hcc.2.2⟩
      omega
    · rw [if_neg hp, if_neg hp]
      have he : (if open_pred a b (if e.position = posPk ∧ e.date_end = none
          then { e with date_end := some now } else e) = true then 1 else 0) =
          (if open_pred a b e = true then 1 else 0) := by
        by_cases hc : e.position = posPk ∧ e.date_end = none
        · rw [if_pos hc]
          simp only [open_pred, decide_eq_true_eq]
          rw [if_neg (by simp), if_neg]
          intro hcc
          exact hp (hcc.1 ▸ hc.1)
        · rw [if_neg hc]
      omega

theorem roles_changed_add_one_create (s : St) (posPk rolePk now : Nat)
    (hobs : ∀ e ∈ s.prlogs, ¬(e.position = posPk ∧ e.role = rolePk ∧ e.date_start = now)) :
    roles_changed_add_one s posPk rolePk now =
      ({ s with
          prlogs := s.prlogs ++ [⟨s.nextPk, posPk, rolePk, now, none⟩],
          nextPk := s.nextPk + 1 }, none) := by
  unfold roles_changed_add_one
  have hf : s.prlogs.filter (fun e =>
      decide (e.position = posPk ∧ e.role = rolePk ∧ e.date_start = now)) = [] := by
    rw [List.filter_eq_nil_iff]
    intro e he
    simpa using hobs e he
  rw [hf]

theorem roles_changed_remove_one_backfill (s : St) (posPk rolePk now : Nat)
    (hopen : open_entries s posPk rolePk = [])
    (hpkb : ∀ e ∈ s.prlogs, e.pk < s.nextPk) :
    roles_changed_remove_one s posPk rolePk now =
      ({ s with
          prlogs := s.prlogs ++ [⟨s.nextPk, posPk, rolePk, backfill_epoch, some now⟩],
          nextPk := s.nextPk + 1 }, none) := by
  unfold roles_changed_remove_one
  rw [hopen]
  dsimp only
  rw [List.map_append,
      map_if_pk_id s.prlogs s.nextPk _ (fun e he hpk => by
        have := hpkb e he
        omega)]
  rw [List.map_singleton, if_pos rfl]

theorem roles_changed_remove_one_close (s : St) (posPk rolePk now : Nat) (lg : PRLog)
    (hopen : open_entries s posPk rolePk = [lg]) :
    roles_changed_remove_one s posPk rolePk now =
      ({ s with prlogs := s.prlogs.map (fun e =>
          if e.pk = lg.pk then { lg with date_end := some now } else e) }, none) := by
  unfold roles_changed_remove_one
  rw [hopen]

theorem run_list_cons {α : Type} (f : St → α → St × Option VErr) (s : St) (x : α)
    (xs : List α) :
    run_list f s (x :: xs) = match f s x with
      | (s1, some e) => (s1, some e)
      | (s1, none) => run_list f s1 xs := rfl

theorem countP_singleton_open (a b pk pos role ds : Nat) (de : Option Nat) :
    List.countP (open_pred a b) [⟨pk, pos, role, ds, de⟩] =
      if pos = a ∧ role = b ∧ de = none then 1 else 0 := by
  by_cases h : pos = a ∧ role = b ∧ de = none
  · rw [if_pos h]
    have : open_pred a b ⟨pk, pos, role, ds, de⟩ = true := by
      simp [open_pred, h.1, h.2.1, h.2.2]
    rw [List.countP_cons_of_pos _ _ this, List.countP_nil]
  · rw [if_neg h]
    have : ¬ open_pred a b ⟨pk, pos, role, ds, de⟩ = true := by
      simp only [open_pred, decide_eq_true_eq]
      exact h
    rw [List.countP_cons_of_neg _ _ this, List.countP_nil]

theorem add_fold_spec (posPk now : Nat) (ids : List Nat) :
    ∀ (s : St), ids.Nodup →
    (∀ e ∈ s.prlogs, ¬(e.position = posPk ∧ e.role ∈ ids ∧ e.date_start = now)) →
    (s.prlogs.map (fun e => e.pk)).Nodup →
    (∀ e ∈ s.prlogs, e.pk < s.nextPk) →
    (∀ e ∈ s.prlogs, e.date_start < now + 1) →
    ∃ s' : St,
      run_list (fun st r => roles_changed_add_one st posPk r now) s ids = (s', none) ∧
      (∀ a b : Nat, open_count s' a b =
        open_count s a b + (if a = posPk ∧ b ∈ ids then 1 else 0)) ∧
      (s'.prlogs.map (fun e => e.pk)).Nodup ∧
      (∀ e ∈ s'.prlogs, e.pk < s'.nextPk) ∧
      (∀ e ∈ s'.prlogs, e.date_start < now + 1) ∧
      s'.positions = s.positions ∧ s'.roles = s.roles ∧ s'.worklogs = s.worklogs := by
  induction ids with
  | nil =>
    intro s _ _ h1 h2 h3
    exact ⟨s, rfl, by intro a b; simp, h1, h2, h3, rfl, rfl, rfl⟩
  | cons r rest ih =>
    intro s hnd hobs hpknd hpkb hdate
    rw [List.nodup_cons] at hnd
    have hobs1 : ∀ e ∈ s.prlogs, ¬(e.position = posPk ∧ e.role = r ∧ e.date_start = now) :=
      fun e he hc => hobs e he ⟨hc.1, by rw [hc.2.1]; exact List.mem_cons_self r rest, hc.2.2⟩
    have hpknd1 : (((s.prlogs ++ [(⟨s.nextPk, posPk, r, now, none⟩ : PRLog)]).map
        (fun e => e.pk))).Nodup := by
      rw [List.map_append]
      refine List.Nodup.append hpknd (List.nodup_singleton _) ?_
      intro x hx hx2
      rw [List.map_singleton, List.mem_singleton] at hx2
      obtain ⟨e, he, rfl⟩ := List.mem_map.mp hx
      have := hpkb e he
      dsimp only at hx2
      omega
    have hpkb1 : ∀ e ∈ s.prlogs ++ [(⟨s.nextPk, posPk, r, now, none⟩ : PRLog)],
        e.pk < s.nextPk + 1 := by
      intro e he
      rcases List.mem_append.mp he with h | h
      · have := hpkb e h
        omega
      · rw [List.mem_singleton] at h
        subst h
        exact Nat.lt_succ_self _
    have hdate1 : ∀ e ∈ s.prlogs ++ [(⟨s.nextPk, posPk, r, now, none⟩ : PRLog)],
        e.date_start < now + 1 := by
      intro e he
      rcases List.mem_append.mp he with h | h
      · exact hdate e h
      · rw [List.mem_singleton] at h
        subst h
        exact Nat.lt_succ_self _
    have hobs2 : ∀ e ∈ s.prlogs ++ [(⟨s.nextPk, posPk, r, now, none⟩ : PRLog)],
        ¬(e.position = posPk ∧ e.role ∈ rest ∧ e.date_start = now) := by
      intro e he hc
      rcases List.mem_append.mp he with h | h
      · exact hobs e h ⟨hc.1, List.mem_cons_of_mem _ hc.2.1, hc.2.2⟩
      · rw [List.mem_singleton] at h
        subst h
        exact hnd.1 hc.2.1
    obtain ⟨s', hrun, hcount, hnd', hpkb', hdate', hpos', hroles', hwl'⟩ :=
      ih { s with
            prlogs := s.prlogs ++ [(⟨s.nextPk, posPk, r, now, none⟩ : PRLog)],
            nextPk := s.nextPk + 1 } hnd.2 hobs2 hpknd1 hpkb1 hdate1
    refine ⟨s', ?_, ?_, hnd', hpkb', hdate', hpos', hroles', hwl'⟩
    · rw [run_list_cons, roles_changed_add_one_create s posPk r now hobs1]
      exact hrun
    · intro a b
      rw [hcount a b]
      have hcnt1 : open_count { s with
            prlogs := s.prlogs ++ [(⟨s.nextPk, posPk, r, now, none⟩ : PRLog)],
            nextPk := s.nextPk + 1 } a b =
          open_count s a b + (if a = posPk ∧ b = r then 1 else 0) := by
        rw [open_count_eq_countP, open_count_eq_countP]
        show (s.prlogs ++ [(⟨s.nextPk, posPk, r, now, none⟩ : PRLog)]).countP _ = _
        rw [List.countP_append, countP_singleton_open]
        congr 1
        by_cases ha : a = posPk ∧ b = r
        · rw [if_pos ⟨ha.1.symm, ha.2.symm, rfl⟩, if_pos ha]
        · rw [if_neg (fun hc => ha ⟨hc.1.symm, hc.2.1.symm⟩), if_neg ha]
      rw [hcnt1]
      by_cases ha : a = posPk
      · by_cases hbr : b = r
        · subst hbr
          rw [if_pos ⟨ha, rfl⟩, if_neg (fun hc => hnd.1 hc.2),
              if_pos ⟨ha, List.mem_cons_self _ _⟩]
        · by_cases hbrest : b ∈ rest
          · rw [if_neg (fun hc => hbr hc.2), if_pos ⟨ha, hbrest⟩,
                if_pos ⟨ha, List.mem_cons_of_mem _ hbrest⟩]
          · rw [if_neg (fun hc => hbr hc.2), if_neg (fun hc => hbrest hc.2),
                if_neg (fun hc => (List.mem_cons.mp hc.2).elim hbr hbrest)]
      · rw [if_neg (fun hc => ha hc.1), if_neg (fun hc => ha hc.1),
            if_neg (fun hc => ha hc.1)]

theorem remove_fold_spec (posPk now : Nat) (ids : List Nat) :
    ∀ (s : St),
    (∀ b, open_count s posPk b ≤ 1) →
    (s.prlogs.map (fun e => e.pk)).Nodup →
    (∀ e ∈ s.prlogs, e.pk < s.nextPk) →
    (∀ e ∈ s.prlogs, e.date_start < now + 1) →
    ∃ s' : St,
      run_list (fun st r => roles_changed_remove_one st posPk r now) s ids = (s', none) ∧
      (∀ a b : Nat, open_count s' a b =
        if a = posPk ∧ b ∈ ids then 0 else open_count s a b) ∧
      (s'.prlogs.map (fun e => e.pk)).Nodup ∧
      (∀ e ∈ s'.prlogs, e.pk < s'.nextPk) ∧
      (∀ e ∈ s'.prlogs, e.date_start < now + 1) ∧
      s'.positions = s.positions ∧ s'.roles = s.roles ∧ s'.worklogs = s.worklogs := by
  induction ids with
  | nil =>
    intro s _ h1 h2 h3
    exact ⟨s, rfl, by intro a b; simp, h1, h2, h3, rfl, rfl, rfl⟩
  | cons r rest ih =>
    intro s hle hpknd hpkb hdate
    cases hoe : open_entries s posPk r with
    | nil =>
      have hcnt0 : open_count s posPk r = 0 := by
        rw [open_count, hoe]
        rfl
      have hpknd1 : (((s.prlogs ++
          [(⟨s.nextPk, posPk, r, backfill_epoch, some now⟩ : PRLog)]).map
          (fun e => e.pk))).Nodup := by
        rw [List.map_append]
        refine List.Nodup.append hpknd (List.nodup_singleton _) ?_
        intro x hx hx2
        rw [List.map_singleton, List.mem_singleton] at hx2
        obtain ⟨e, he, rfl⟩ := List.mem_map.mp hx
        have := hpkb e he
        dsimp only at hx2
        omega
      have hpkb1 : ∀ e ∈ s.prlogs ++
          [(⟨s.nextPk, posPk, r, backfill_epoch, some now⟩ : PRLog)],
          e.pk < s.nextPk + 1 := by
        intro e he
        rcases List.mem_append.mp he with h | h
        · have := hpkb e h
          omega
        · rw [List.mem_singleton] at h
          subst h
          exact Nat.lt_succ_self _
      have hdate1 : ∀ e ∈ s.prlogs ++
          [(⟨s.nextPk, posPk, r, backfill_epoch, some now⟩ : PRLog)],
          e.date_start < now + 1 := by
        intro e he
        rcases List.mem_append.mp he with h | h
        · exact hdate e h
        · rw [List.mem_singleton] at h
          subst h
          show backfill_epoch < now + 1
          unfold backfill_epoch
          omega
      have hcnteq : ∀ a b, open_count { s with
            prlogs := s.prlogs ++ [(⟨s.nextPk, posPk, r, backfill_epoch, some now⟩ : PRLog)],
            nextPk := s.nextPk + 1 } a b = open_count s a b := by
        intro a b
        rw [open_count_eq_countP, open_count_eq_countP]
        show (s.prlogs ++ [(⟨s.nextPk, posPk, r, backfill_epoch, some now⟩ : PRLog)]).countP _ = _
        rw [List.countP_append, countP_singleton_open,
            if_neg (fun hc => Option.noConfusion hc.2.2)]
        omega
      have hle1 : ∀ b, open_count { s with
            prlogs := s.prlogs ++ [(⟨s.nextPk, posPk, r, backfill_epoch, some now⟩ : PRLog)],
            nextPk := s.nextPk + 1 } posPk b ≤ 1 := by
        intro b
        rw [hcnteq]
        exact hle b
      obtain ⟨s', hrun, hcount, hnd', hpkb', hdate', hpos', hroles', hwl'⟩ :=
        ih { s with
              prlogs := s.prlogs ++ [(⟨s.nextPk, posPk, r, backfill_epoch, some now⟩ : PRLog)],
              nextPk := s.nextPk + 1 } hle1 hpknd1 hpkb1 hdate1
      refine ⟨s', ?_, ?_, hnd', hpkb', hdate', hpos', hroles', hwl'⟩
      · rw [run_list_cons, roles_changed_remove_one_backfill s posPk r now hoe hpkb]
        exact hrun
      · intro a b
        rw [hcount a b, hcnteq a b]
        by_cases ha : a = posPk
        · by_cases hbr : b = r
          · subst hbr
            by_cases hbrest : b ∈ rest
            · rw [if_pos ⟨ha, hbrest⟩, if_pos ⟨ha, List.mem_cons_self _ _⟩]
            · rw [if_neg (fun hc => hbrest hc.2), if_pos ⟨ha, List.mem_cons_self _ _⟩,
                  ha, hcnt0]
          · by_cases hbrest : b ∈ rest
            · rw [if_pos ⟨ha, hbrest⟩, if_pos ⟨ha, List.mem_cons_of_mem _ hbrest⟩]
            · rw [if_neg (fun hc => hbrest hc.2),
                  if_neg (fun hc => (List.mem_cons.mp hc.2).elim hbr hbrest)]
        · rw [if_neg (fun hc => ha hc.1), if_neg (fun hc => ha hc.1)]
    | cons lg tl =>
      cases tl with
      | cons l2 t2 =>
        exfalso
        have : open_count s posPk r ≤ 1 := hle r
        rw [open_count, hoe] at this
        simp at this
      | nil =>
        have hmf : lg ∈ s.prlogs.filter (open_pred posPk r) := by
          show lg ∈ open_entries s posPk r
          rw [hoe]
          exact List.mem_singleton_self lg
        have hlgmem : lg ∈ s.prlogs := List.mem_of_mem_filter hmf
        have hlgopen : open_pred posPk r lg = true := List.of_mem_filter hmf
        have hlg : lg.position = posPk ∧ lg.role = r ∧ lg.date_end = none := by
          simpa [open_pred] using hlgopen
        have hcnt1 : open_count s posPk r = 1 := by
          rw [open_count, hoe]
          rfl
        have hcnteq : ∀ a b, open_count { s with prlogs := s.prlogs.map (fun e =>
              if e.pk = lg.pk then { lg with date_end := some now } else e) } a b =
            (if a = posPk ∧ b = r then open_count s a b - 1 else open_count s a b) := by
          intro a b
          have hkey := countP_update_pk s.prlogs lg { lg with date_end := some now }
            (open_pred a b) hpknd hlgmem
          have hclosed : open_pred a b { lg with date_end := some now } = false := by
            simp [open_pred]
          have hif0 : (if open_pred a b { lg with date_end := some now } = true
              then (1 : Nat) else 0) = 0 := by
            rw [hclosed]
            rfl
          rw [hif0] at hkey
          rw [open_count_eq_countP, open_count_eq_countP]
          show (s.prlogs.map (fun e =>
              if e.pk = lg.pk then { lg with date_end := some now } else e)).countP _ = _
          by_cases hab : a = posPk ∧ b = r
          · have hplg : open_pred a b lg = true := by
              simp [open_pred, hlg.1, hlg.2.1, hlg.2.2, hab.1, hab.2]
            have hif1 : (if open_pred a b lg = true then (1 : Nat) else 0) = 1 := by
              rw [hplg]
              rfl
            rw [hif1] at hkey
            rw [if_pos hab]
            rw [open_count_eq_countP] at hcnt1
            omega
          · have hplg : open_pred a b lg = false := by
              simp only [open_pred, decide_eq_false_iff_not]
              intro hc
              exact hab ⟨hc.1.symm.trans hlg.1, hc.2.1.symm.trans hlg.2.1⟩
            have hif1 : (if open_pred a b lg = true then (1 : Nat) else 0) = 0 := by
              rw [hplg]
              rfl
            rw [hif1] at hkey
            rw [if_neg hab]
            omega
        have hpknd1 : ((s.prlogs.map (fun e =>
            if e.pk = lg.pk then { lg with date_end := some now } else e)).map
            (fun e => e.pk)).Nodup := by
          rw [map_pk_update_pk s.prlogs lg.pk { lg with date_end := some now } rfl]
          exact hpknd
        have hpkb1 : ∀ e ∈ s.prlogs.map (fun e =>
            if e.pk = lg.pk then { lg with date_end := some now } else e),
            e.pk < s.nextPk := by
          intro e he
          obtain ⟨e0, he0, rfl⟩ := List.mem_map.mp he
          by_cases hq : e0.pk = lg.pk
          · rw [if_pos hq]
            show lg.pk < s.nextPk
            exact hpkb lg hlgmem
          · rw [if_neg hq]
            exact hpkb e0 he0
        have hdate1 : ∀ e ∈ s.prlogs.map (fun e =>
            if e.pk = lg.pk then { lg with date_end := some now } else e),
            e.date_start < now + 1 := by
          intro e he
          obtain ⟨e0, he0, rfl⟩ := List.mem_map.mp he
          by_cases hq : e0.pk = lg.pk
          · rw [if_pos hq]
            show lg.date_start < now + 1
            exact hdate lg hlgmem
          · rw [if_neg hq]
            exact hdate e0 he0
        have hle1 : ∀ b, open_count { s with prlogs := s.prlogs.map (fun e =>
              if e.pk = lg.pk then { lg with date_end := some now } else e) } posPk b ≤ 1 := by
          intro b
          rw [hcnteq]
          by_cases hb : posPk = posPk ∧ b = r
          · rw [if_pos hb]
            have := hle b
            omega
          · rw [if_neg hb]
            exact hle b
        obtain ⟨s', hrun, hcount, hnd', hpkb', hdate', hpos', hroles', hwl'⟩ :=
          ih { s with prlogs := s.prlogs.map (fun e =>
                if e.pk = lg.pk then { lg with date_end := some now } else e) }
            hle1 hpknd1 hpkb1 hdate1
        refine ⟨s', ?_, ?_, hnd', hpkb', hdate', hpos', hroles', hwl'⟩
        · rw [run_list_cons, roles_changed_remove_one_close s posPk r now lg hoe]
          exact hrun
        · intro a b
          rw [hcount a b, hcnteq a b]
          by_cases ha : a = posPk
          · by_cases hbr : b = r
            · subst hbr
              by_cases hbrest : b ∈ rest
              · rw [if_pos ⟨ha, hbrest⟩, if_pos ⟨ha, List.mem_cons_self _ _⟩]
              · rw [if_neg (fun hc => hbrest hc.2), if_pos ⟨ha, rfl⟩,
                    if_pos ⟨ha, List.mem_cons_self _ _⟩, ha, hcnt1]
            · by_cases hbrest : b ∈ rest
              · rw [if_pos ⟨ha, hbrest⟩, if_pos ⟨ha, List.mem_cons_of_mem _ hbrest⟩]
              · rw [if_neg (fun hc => hbrest hc.2), if_neg (fun hc => hbr hc.2),
                    if_neg (fun hc => (List.mem_cons.mp hc.2).elim hbr hbrest)]
          · rw [if_neg (fun hc => ha hc.1), if_neg (fun hc => ha hc.1),
                if_neg (fun hc => ha hc.1)]

theorem position_update_roles_map_pk (s : St) (posPk : Nat) (f : List Nat → List Nat) :
    (position_update_roles s posPk f).positions.map (fun q => q.pk) =
      s.positions.map (fun q => q.pk) := by
  show ((s.positions.map (fun q =>
      if q.pk = posPk then { q with roles := f q.roles } else q)).map (fun q => q.pk)) = _
  rw [List.map_map]
  apply List.map_congr_left
  intro q hq
  by_cases h : q.pk = posPk
  · simp [h]
  · simp [h]

theorem position_roles_add_spec (s : St) (posPk : Nat) (pks : List Nat) (now t : Nat)
    (hwf : ledger_wf s t) (hinv : ledger_inv s) (ht : t ≤ now)
    (hpos : ∃ q ∈ s.positions, q.pk = posPk) :
    ∃ s', position_roles_add s posPk pks now = (s', none) ∧
      ledger_wf s' (now + 1) ∧ ledger_inv s' ∧
      s'.positions.map (fun q => q.pk) = s.positions.map (fun q => q.pk) := by
  obtain ⟨hqnd, hrnd, hpknd, hpkb, hdate⟩ := hwf
  cases hfind : s.positions.find? (fun q => decide (q.pk = posPk)) with
  | none =>
    exfalso
    obtain ⟨q, hq, hqpk⟩ := hpos
    have := List.find?_eq_none.mp hfind q hq
    simp [hqpk] at this
  | some q0 =>
    have hq0mem : q0 ∈ s.positions := List.mem_of_find?_eq_some hfind
    have hq0pk : q0.pk = posPk := by
      have hfs := List.find?_some hfind
      simpa using hfs
    have hnidsnd : ((pks.dedup).filter (fun r => !q0.roles.contains r)).Nodup :=
      (List.nodup_dedup pks).filter _
    have hnotin : ∀ r ∈ (pks.dedup).filter (fun r => !q0.roles.contains r),
        r ∉ q0.roles := by
      intro r hr
      have := List.of_mem_filter hr
      simpa using this
    have hobs : ∀ e ∈ (position_update_roles s posPk
        (fun rs => rs ++ (pks.dedup).filter (fun r => !q0.roles.contains r))).prlogs,
        ¬(e.position = posPk ∧
          e.role ∈ (pks.dedup).filter (fun r => !q0.roles.contains r) ∧
          e.date_start = now) := by
      intro e he hc
      have hd := hdate e he
      omega
    obtain ⟨s', hrun, hcount, hnd', hpkb', hdate', hpos', hroles', hwl'⟩ :=
      add_fold_spec posPk now ((pks.dedup).filter (fun r => !q0.roles.contains r))
        (position_update_roles s posPk
          (fun rs => rs ++ (pks.dedup).filter (fun r => !q0.roles.contains r)))
        hnidsnd hobs hpknd hpkb
        (fun e he => by
          have := hdate e he
          omega)
    have hposmap : s'.positions.map (fun q => q.pk) = s.positions.map (fun q => q.pk) := by
      rw [hpos']
      exact position_update_roles_map_pk s posPk _
    refine ⟨s', ?_, ?_, ?_, hposmap⟩
    · unfold position_roles_add
      rw [hfind]
      exact hrun
    · refine ⟨by rw [hposmap]; exact hqnd, ?_, hnd', hpkb', hdate'⟩
      intro q' hq'
      rw [hpos'] at hq'
      obtain ⟨q, hq, rfl⟩ := List.mem_map.mp hq'
      by_cases h : q.pk = posPk
      · rw [if_pos h]
        have hqq0 : q = q0 := List.inj_on_of_nodup_map hqnd hq hq0mem (h.trans hq0pk.symm)
        subst hqq0
        show (q.roles ++ (pks.dedup).filter (fun r => !q.roles.contains r)).Nodup
        refine List.Nodup.append (hrnd q hq) hnidsnd ?_
        intro x hx hx2
        exact hnotin x hx2 hx
      · rw [if_neg h]
        exact hrnd q hq
    · intro q' hq' r
      rw [hpos'] at hq'
      obtain ⟨q, hq, rfl⟩ := List.mem_map.mp hq'
      have hcnt := hcount ((if q.pk = posPk then { q with roles := q.roles ++ (pks.dedup).filter (fun r => !q0.roles.contains r) } else q).pk) r
      rw [hcnt]
      by_cases h : q.pk = posPk
      · have hqq0 : q = q0 := List.inj_on_of_nodup_map hqnd hq hq0mem (h.trans hq0pk.symm)
        subst hqq0
        rw [if_pos h]
        show open_count s q.pk r + _ = _
        rw [hinv q hq r]
        by_cases hr1 : r ∈ q.roles
        · have hr2 : r ∉ (pks.dedup).filter (fun r => !q.roles.contains r) :=
            fun hc => hnotin r hc hr1
          rw [if_pos hr1]
          rw [if_neg (fun hc => hr2 hc.2)]
          rw [if_pos (List.mem_append.mpr (Or.inl hr1))]
        · by_cases hr2 : r ∈ (pks.dedup).filter (fun r => !q.roles.contains r)
          · rw [if_neg hr1, if_pos ⟨h, hr2⟩,
                if_pos (List.mem_append.mpr (Or.inr hr2))]
          · rw [if_neg hr1, if_neg (fun hc => hr2 hc.2),
                if_neg (fun hc => (List.mem_append.mp hc).elim hr1 hr2)]
      · rw [if_neg h]
        show open_count s q.pk r + _ = _
        rw [hinv q hq r]
        rw [if_neg (show ¬(q.pk = posPk ∧
            r ∈ List.filter (fun r => !q0.roles.contains r) pks.dedup) from fun hc => h hc.1)]
        exact Nat.add_zero _

theorem position_roles_remove_spec (s : St) (posPk : Nat) (pks : List Nat) (now t : Nat)
    (hwf : ledger_wf s t) (hinv : ledger_inv s) (ht : t ≤ now)
    (hpos : ∃ q ∈ s.positions, q.pk = posPk) :
    ∃ s', position_roles_remove s posPk pks now = (s', none) ∧
      ledger_wf s' (now + 1) ∧ ledger_inv s' ∧
      s'.positions.map (fun q => q.pk) = s.positions.map (fun q => q.pk) := by
  obtain ⟨hqnd, hrnd, hpknd, hpkb, hdate⟩ := hwf
  cases hfind : s.positions.find? (fun q => decide (q.pk = posPk)) with
  | none =>
    exfalso
    obtain ⟨q, hq, hqpk⟩ := hpos
    have := List.find?_eq_none.mp hfind q hq
    simp [hqpk] at this
  | some q0 =>
    have hq0mem : q0 ∈ s.positions := List.mem_of_find?_eq_some hfind
    have hq0pk : q0.pk = posPk := by
      have hfs := List.find?_some hfind
      simpa using hfs
    have hle : ∀ b, open_count (position_update_roles s posPk
        (fun rs => rs.filter (fun r => !(pks.dedup).contains r))) posPk b ≤ 1 := by
      intro b
      show open_count s posPk b ≤ 1
      have hb := hinv q0 hq0mem b
      rw [hq0pk] at hb
      rw [hb]
      by_cases hbr : b ∈ q0.roles
      · rw [if_pos hbr]
      · rw [if_neg hbr]
        omega
    obtain ⟨s', hrun, hcount, hnd', hpkb', hdate', hpos', hroles', hwl'⟩ :=
      remove_fold_spec posPk now (pks.dedup)
        (position_update_roles s posPk
          (fun rs => rs.filter (fun r => !(pks.dedup).contains r)))
        hle hpknd hpkb
        (fun e he => by
          have := hdate e he
          omega)
    have hposmap : s'.positions.map (fun q => q.pk) = s.positions.map (fun q => q.pk) := by
      rw [hpos']
      exact position_update_roles_map_pk s posPk _
    refine ⟨s', ?_, ?_, ?_, hposmap⟩
    · unfold position_roles_remove
      rw [hfind]
      exact hrun
    · refine ⟨by rw [hposmap]; exact hqnd, ?_, hnd', hpkb', hdate'⟩
      intro q' hq'
      rw [hpos'] at hq'
      obtain ⟨q, hq, rfl⟩ := List.mem_map.mp hq'
      by_cases h : q.pk = posPk
      · rw [if_pos h]
        show (q.roles.filter (fun r => !(pks.dedup).contains r)).Nodup
        exact (hrnd q hq).filter _
      · rw [if_neg h]
        exact hrnd q hq
    · intro q' hq' r
      rw [hpos'] at hq'
      obtain ⟨q, hq, rfl⟩ := List.mem_map.mp hq'
      by_cases h : q.pk = posPk
      · rw [if_pos h]
        show open_count s' q.pk r =
          if r ∈ q.roles.filter (fun r => !(pks.dedup).contains r) then 1 else 0
        rw [hcount q.pk r]
        by_cases hr : r ∈ pks.dedup
        · have hnotf : r ∉ q.roles.filter (fun r => !(pks.dedup).contains r) := by
            intro hc
            have := List.of_mem_filter hc
            simp at this
            exact this (List.mem_dedup.mp hr)
          rw [if_pos (show q.pk = posPk ∧ r ∈ pks.dedup from ⟨h, hr⟩)]
          rw [if_neg hnotf]
        · rw [if_neg (show ¬(q.pk = posPk ∧ r ∈ pks.dedup) from fun hc => hr hc.2)]
          show open_count s q.pk r = _
          rw [hinv q hq r]
          by_cases hrr : r ∈ q.roles
          · have hcontains : (!(pks.dedup).contains r) = true := by
              simp
              exact fun hc => hr (List.mem_dedup.mpr hc)
            rw [if_pos hrr, if_pos (List.mem_filter.mpr ⟨hrr, hcontains⟩)]
          · rw [if_neg hrr, if_neg (fun hc => hrr (List.mem_of_mem_filter hc))]
      · rw [if_neg h]
        show open_count s' q.pk r = if r ∈ q.roles then 1 else 0
        rw [hcount q.pk r,
            if_neg (show ¬(q.pk = posPk ∧ r ∈ pks.dedup) from fun hc => h hc.1)]
        show open_count s q.pk r = _
        exact hinv q hq r

theorem position_roles_clear_spec (s : St) (posPk now t : Nat)
    (hwf : ledger_wf s t) (hinv : ledger_inv s) (ht : t ≤ now)
    (hpos : ∃ q ∈ s.positions, q.pk = posPk) :
    ∃ s', position_roles_clear s posPk now = (s', none) ∧
      ledger_wf s' (now + 1) ∧ ledger_inv s' ∧
      s'.positions.map (fun q => q.pk) = s.positions.map (fun q => q.pk) := by
  obtain ⟨hqnd, hrnd, hpknd, hpkb, hdate⟩ := hwf
  cases hfind : s.positions.find? (fun q => decide (q.pk = posPk)) with
  | none =>
    exfalso
    obtain ⟨q, hq, hqpk⟩ := hpos
    have := List.find?_eq_none.mp hfind q hq
    simp [hqpk] at this
  | some q0 =>
    have hcnt : ∀ a b, open_count (roles_changed_clear
        (position_update_roles s posPk (fun _ => [])) posPk now) a b =
        if a = posPk then 0 else open_count s a b := by
      intro a b
      rw [open_count_eq_countP]
      show (s.prlogs.map (fun e => if e.position = posPk ∧ e.date_end = none
          then { e with date_end := some now } else e)).countP (open_pred a b) = _
      rw [countP_clear_map, open_count_eq_countP]
    have hposmap : (roles_changed_clear
        (position_update_roles s posPk (fun _ => [])) posPk now).positions.map
          (fun q => q.pk) = s.positions.map (fun q => q.pk) := by
      show (position_update_roles s posPk (fun _ => [])).positions.map (fun q => q.pk) = _
      exact position_update_roles_map_pk s posPk _
    have hpkmap : (roles_changed_clear
        (position_update_roles s posPk (fun _ => [])) posPk now).prlogs.map
          (fun e => e.pk) = s.prlogs.map (fun e => e.pk) := by
      show ((s.prlogs.map (fun e => if e.position = posPk ∧ e.date_end = none
          then { e with date_end := some now } else e)).map (fun e => e.pk)) = _
      rw [List.map_map]
      apply List.map_congr_left
      intro e he
      by_cases hc : e.position = posPk ∧ e.date_end = none
      · simp [hc]
      · simp [hc]
    refine ⟨roles_changed_clear (position_update_roles s posPk (fun _ => [])) posPk now,
      ?_, ⟨?_, ?_, ?_, ?_, ?_⟩, ?_, hposmap⟩
    · unfold position_roles_clear
      rw [hfind]
    · rw [hposmap]
      exact hqnd
    · intro q' hq'
      have hq2 : q' ∈ s.positions.map (fun q =>
          if q.pk = posPk then { q with roles := ([] : List Nat) } else q) := hq'
      obtain ⟨q, hq, rfl⟩ := List.mem_map.mp hq2
      by_cases h : q.pk = posPk
      · rw [if_pos h]
        show ([] : List Nat).Nodup
        exact List.nodup_nil
      · rw [if_neg h]
        exact hrnd q hq
    · rw [hpkmap]
      exact hpknd
    · intro e he
      have he2 : e ∈ s.prlogs.map (fun e => if e.position = posPk ∧ e.date_end = none
          then { e with date_end := some now } else e) := he
      obtain ⟨e0, he0, rfl⟩ := List.mem_map.mp he2
      by_cases hc : e0.position = posPk ∧ e0.date_end = none
      · rw [if_pos hc]
        show e0.pk < s.nextPk
        exact hpkb e0 he0
      · rw [if_neg hc]
        show e0.pk < s.nextPk
        exact hpkb e0 he0
    · intro e he
      have he2 : e ∈ s.prlogs.map (fun e => if e.position = posPk ∧ e.date_end = none
          then { e with date_end := some now } else e) := he
      obtain ⟨e0, he0, rfl⟩ := List.mem_map.mp he2
      by_cases hc : e0.position = posPk ∧ e0.date_end = none
      · rw [if_pos hc]
        show e0.date_start < now + 1
        have := hdate e0 he0
        omega
      · rw [if_neg hc]
        show e0.date_start < now + 1
        have := hdate e0 he0
        omega
    · intro q' hq' r
      have hq2 : q' ∈ s.positions.map (fun q =>
          if q.pk = posPk then { q with roles := ([] : List Nat) } else q) := hq'
      obtain ⟨q, hq, rfl⟩ := List.mem_map.mp hq2
      by_cases h : q.pk = posPk
      · rw [if_pos h]
        show open_count _ q.pk r = if r ∈ ([] : List Nat) then 1 else 0
        rw [hcnt q.pk r, if_pos h, if_neg (List.not_mem_nil r)]
      · rw [if_neg h]
        show open_count _ q.pk r = if r ∈ q.roles then 1 else 0
        rw [hcnt q.pk r, if_neg h]
        exact hinv q hq r

theorem ops_valid_congr (s s' : St)
    (hmap : s'.positions.map (fun q => q.pk) = s.positions.map (fun q => q.pk)) :
    ∀ (t : Nat) (ops : List MutOp), ops_valid s t ops → ops_valid s' t ops := by
  intro t ops
  induction ops generalizing t with
  | nil => intro _; trivial
  | cons op rest ih =>
    intro h
    obtain ⟨h1, h2, h3⟩ := h
    refine ⟨h1, ?_, ih _ h3⟩
    obtain ⟨q, hq, hqpk⟩ := h2
    have hmem : op.target ∈ s'.positions.map (fun q => q.pk) := by
      rw [hmap]
      exact hqpk ▸ List.mem_map_of_mem (fun q => q.pk) hq
    obtain ⟨q', hq', hq'pk⟩ := List.mem_map.mp hmem
    exact ⟨q', hq', hq'pk⟩

theorem apply_muts_spec (ops : List MutOp) :
    ∀ (s : St) (t : Nat), ledger_wf s t → ledger_inv s → ops_valid s t ops →
    ∃ s' t', apply_muts s ops = (s', none) ∧ ledger_wf s' t' ∧ ledger_inv s' ∧
      s'.positions.map (fun q => q.pk) = s.positions.map (fun q => q.pk) := by
  induction ops with
  | nil =>
    intro s t hwf hinv _
    exact ⟨s, t, rfl, hwf, hinv, rfl⟩
  | cons op rest ih =>
    intro s t hwf hinv hv
    obtain ⟨hts, hpos, hvrest⟩ := hv
    cases op with
    | add q pks tm =>
      obtain ⟨s1, hstep, hwf1, hinv1, hmap1⟩ :=
        position_roles_add_spec s q pks tm t hwf hinv hts hpos
      obtain ⟨s2, t2, hrun2, hwf2, hinv2, hmap2⟩ :=
        ih s1 (tm + 1) hwf1 hinv1 (ops_valid_congr s s1 hmap1 _ _ hvrest)
      refine ⟨s2, t2, ?_, hwf2, hinv2, hmap2.trans hmap1⟩
      show run_list apply_mut s (MutOp.add q pks tm :: rest) = (s2, none)
      have hstep2 : apply_mut s (MutOp.add q pks tm) = (s1, none) := hstep
      rw [run_list_cons, hstep2]
      exact hrun2
    | remove q pks tm =>
      obtain ⟨s1, hstep, hwf1, hinv1, hmap1⟩ :=
        position_roles_remove_spec s q pks tm t hwf hinv hts hpos
      obtain ⟨s2, t2, hrun2, hwf2, hinv2, hmap2⟩ :=
        ih s1 (tm + 1) hwf1 hinv1 (ops_valid_congr s s1 hmap1 _ _ hvrest)
      refine ⟨s2, t2, ?_, hwf2, hinv2, hmap2.trans hmap1⟩
      show run_list apply_mut s (MutOp.remove q pks tm :: rest) = (s2, none)
      have hstep2 : apply_mut s (MutOp.remove q pks tm) = (s1, none) := hstep
      rw [run_list_cons, hstep2]
      exact hrun2
    | clear q tm =>
      obtain ⟨s1, hstep, hwf1, hinv1, hmap1⟩ :=
        position_roles_clear_spec s q tm t hwf hinv hts hpos
      obtain ⟨s2, t2, hrun2, hwf2, hinv2, hmap2⟩ :=
        ih s1 (tm + 1) hwf1 hinv1 (ops_valid_congr s s1 hmap1 _ _ hvrest)
      refine ⟨s2, t2, ?_, hwf2, hinv2, hmap2.trans hmap1⟩
      show run_list apply_mut s (MutOp.clear q tm :: rest) = (s2, none)
      have hstep2 : apply_mut s (MutOp.clear q tm) = (s1, none) := hstep
      rw [run_list_cons, hstep2]
      exact hrun2

/-- C4: starting from a well-formed store satisfying the ledger
invariant, any valid sequence of role-set mutations (add, remove,
clear) succeeds and re-establishes the invariant: for every stored
position, exactly one open PositionRolesLog entry per attached role and
none for a detached role — in particular at most one open entry per
(position, role) pair, and the set of roles with an open entry equals
the position's role set.  In particular, adding a role that already
has an open entry (equivalently, under the invariant, a role already in
the set) changes no log row at all: `get_or_create` finds nothing to do
because Django's m2m `add` filters out already-attached ids before the
`post_add` signal fires. -/
theorem c4_position_roles_ledger :
    (∀ (s : St) (t : Nat) (ops : List MutOp), ledger_wf s t → ledger_inv s →
      ops_valid s t ops →
      ∃ s' t', apply_muts s ops = (s', none) ∧ ledger_wf s' t' ∧ ledger_inv s') ∧
    (∀ (s : St) (posPk R now : Nat) (q : Position),
      s.positions.find? (fun q => decide (q.pk = posPk)) = some q →
      ledger_inv s → 0 < open_count s posPk R →
      ∃ s', position_roles_add s posPk [R] now = (s', none) ∧
        s'.prlogs = s.prlogs) := by
  refine ⟨?_, ?_⟩
  · intro s t ops hwf hinv hv
    obtain ⟨s', t', hrun, hwf', hinv', _⟩ := apply_muts_spec ops s t hwf hinv hv
    exact ⟨s', t', hrun, hwf', hinv'⟩
  · intro s posPk R now q hfind hinv hopen
    have hqmem : q ∈ s.positions := List.mem_of_find?_eq_some hfind
    have hqpk : q.pk = posPk := by
      have hfs := List.find?_some hfind
      simpa using hfs
    have hR : R ∈ q.roles := by
      have hc := hinv q hqmem R
      rw [hqpk] at hc
      rw [hc] at hopen
      by_contra hnc
      rw [if_neg hnc] at hopen
      omega
    have hnil : (([R] : List Nat).dedup).filter (fun r => !q.roles.contains r) = [] := by
      have hded : ([R] : List Nat).dedup = [R] := by simp
      rw [hded, List.filter_eq_nil_iff]
      intro a ha
      rw [List.mem_singleton] at ha
      subst ha
      simp [hR]
    refine ⟨position_update_roles s posPk (fun rs =>
        rs ++ (([R] : List Nat).dedup).filter (fun r => !q.roles.contains r)), ?_, rfl⟩
    simp only [position_roles_add, hfind]
    rw [hnil]
    rfl

theorem c4_position_roles_ledger_witness :
    (∃ s' t', apply_muts c4st
        [MutOp.add 1 [7] 5, MutOp.remove 1 [7] 6, MutOp.clear 1 7] =
        (s', none) ∧ ledger_wf s' t' ∧ ledger_inv s') ∧
    (∃ s', position_roles_add c4st2 1 [7] 9 = (s', none) ∧
      s'.prlogs = c4st2.prlogs) := by
  constructor
  · refine c4_position_roles_ledger.1 c4st 0
      [MutOp.add 1 [7] 5, MutOp.remove 1 [7] 6, MutOp.clear 1 7]
      ⟨by simp [c4st], by simp [c4st], by simp [c4st], by simp [c4st], by simp [c4st]⟩
      ?_
      ⟨by decide, ⟨⟨1, "p", []⟩, by simp [c4st], rfl⟩,
       by decide, ⟨⟨1, "p", []⟩, by simp [c4st], rfl⟩,
       by decide, ⟨⟨1, "p", []⟩, by simp [c4st], rfl⟩, trivial⟩
    intro q hq r
    have hq' : q = ⟨1, "p", []⟩ := by simpa [c4st] using hq
    subst hq'
    simp [open_count, open_entries, c4st]
  · refine c4_position_roles_ledger.2 c4st2 1 7 9 ⟨1, "p", [7]⟩ rfl ?_ (by decide)
    intro q hq r
    have hq' : q = ⟨1, "p", [7]⟩ := by simpa [c4st2] using hq
    subst hq'
    show (List.filter (open_pred 1 r) [(⟨0, 1, 7, 0, none⟩ : PRLog)]).length =
      if r ∈ [7] then 1 else 0
    by_cases h7 : r = 7
    · subst h7
      decide
    · have hop : open_pred 1 r (⟨0, 1, 7, 0, none⟩ : PRLog) = false := by
        apply decide_eq_false
        intro hc
        exact h7 hc.2.1.symm
      simp [hop, h7]

theorem find?_map_pk (l : List Position) (posPk : Nat) (g : Position → Position)
    (hg : ∀ q, (g q).pk = q.pk) :
    (l.map g).find? (fun q => decide (q.pk = posPk)) =
      (l.find? (fun q => decide (q.pk = posPk))).map g := by
  induction l with
  | nil => rfl
  | cons a t ih =>
    rw [List.map_cons]
    by_cases h : a.pk = posPk
    · rw [List.find?_cons_of_pos _ (by simpa [hg] using h),
          List.find?_cons_of_pos _ (by simpa using h), Option.map_some']
    · rw [List.find?_cons_of_neg _ (by simpa [hg] using h),
          List.find?_cons_of_neg _ (by simpa using h), ih]

theorem remove_one_role_eq (s : St) (posPk sp now : Nat)
    (hex : ∃ q ∈ s.positions, q.pk = posPk)
    (hnew : ∀ e ∈ s.prlogs, e.position ≠ posPk)
    (hpkb : ∀ e ∈ s.prlogs, e.pk < s.nextPk) :
    position_roles_remove s posPk [sp] now =
      ({ s with
          positions := (position_update_roles s posPk
            (fun rs => rs.filter (fun r => !(([sp] : List Nat).dedup).contains r))).positions,
          prlogs := s.prlogs ++ [⟨s.nextPk, posPk, sp, backfill_epoch, some now⟩],
          nextPk := s.nextPk + 1 }, none) := by
  obtain ⟨q0, hq0, hq0pk⟩ := hex
  cases hf : s.positions.find? (fun q => decide (q.pk = posPk)) with
  | none =>
    exfalso
    have := List.find?_eq_none.mp hf q0 hq0
    simp [hq0pk] at this
  | some qf =>
    have hopen : open_entries (position_update_roles s posPk
        (fun rs => rs.filter (fun r => !([sp] : List Nat).contains r))) posPk sp
        = [] := by
      rw [open_entries, List.filter_eq_nil_iff]
      intro e he
      show ¬ open_pred posPk sp e = true
      simp only [open_pred, decide_eq_true_eq]
      intro hc
      exact hnew e he hc.1
    simp only [position_roles_remove, hf]
    rw [show ([sp] : List Nat).dedup = [sp] from by simp]
    rw [run_list_cons,
        roles_changed_remove_one_backfill _ posPk sp now hopen (fun e he => hpkb e he)]
    rfl

theorem add_one_role_eq (s : St) (posPk op now : Nat)
    (hex : ∃ q ∈ s.positions, q.pk = posPk)
    (hnoadd : ∀ e ∈ s.prlogs, ¬(e.position = posPk ∧ e.role = op ∧ e.date_start = now))
    (hop : ∀ q ∈ s.positions, q.pk = posPk → op ∉ q.roles) :
    position_roles_add s posPk [op] now =
      ({ s with
          positions := (position_update_roles s posPk (fun rs => rs ++ [op])).positions,
          prlogs := s.prlogs ++ [⟨s.nextPk, posPk, op, now, none⟩],
          nextPk := s.nextPk + 1 }, none) := by
  obtain ⟨q0, hq0, hq0pk⟩ := hex
  cases hf : s.positions.find? (fun q => decide (q.pk = posPk)) with
  | none =>
    exfalso
    have := List.find?_eq_none.mp hf q0 hq0
    simp [hq0pk] at this
  | some qf =>
    have hqfmem : qf ∈ s.positions := List.mem_of_find?_eq_some hf
    have hqfpk : qf.pk = posPk := by
      have hfs := List.find?_some hf
      simpa using hfs
    have hnids : (([op] : List Nat).dedup).filter (fun r => !qf.roles.contains r) = [op] := by
      rw [show ([op] : List Nat).dedup = [op] from by simp]
      rw [List.filter_cons, List.filter_nil]
      rw [if_pos]
      simp
      exact hop qf hqfmem hqfpk
    have hobs : ∀ e ∈ (position_update_roles s posPk (fun rs => rs ++ [op])).prlogs,
        ¬(e.position = posPk ∧ e.role = op ∧ e.date_start = now) :=
      fun e he => hnoadd e he
    simp only [position_roles_add, hf]
    rw [hnids, run_list_cons,
        roles_changed_add_one_create _ posPk op now hobs]
    rfl

theorem double_update_positions (l : List Position) (posPk : Nat) (f g : List Nat → List Nat) :
    (l.map (fun q => if q.pk = posPk then { q with roles := f q.roles } else q)).map
      (fun q => if q.pk = posPk then { q with roles := g q.roles } else q) =
    l.map (fun q => if q.pk = posPk then { q with roles := g (f q.roles) } else q) := by
  rw [List.map_map]
  apply List.map_congr_left
  intro q hq
  by_cases h : q.pk = posPk
  · simp [h]
  · simp [h]

theorem replace_position_step_eq (s : St) (posPk sp op now dt : Nat)
    (hex : ∃ q ∈ s.positions, q.pk = posPk)
    (hnew : ∀ e ∈ s.prlogs, e.position ≠ posPk)
    (hpkb : ∀ e ∈ s.prlogs, e.pk < s.nextPk)
    (hop : ∀ q ∈ s.positions, q.pk = posPk → op ∉ q.roles)
    (hso : sp ≠ op) :
    replace_position_step s posPk sp op now dt =
      ({ s with
          positions := s.positions.map (fun q =>
            if q.pk = posPk then
              { q with roles := q.roles.filter (fun r => !(([sp] : List Nat).dedup).contains r) ++ [op] }
            else q),
          prlogs := s.prlogs ++ [⟨s.nextPk, posPk, sp, backfill_epoch, some dt⟩,
            ⟨s.nextPk + 1, posPk, op, dt, none⟩],
          nextPk := s.nextPk + 2 }, none) := by
  obtain ⟨q0, hq0, hq0pk⟩ := hex
  have hrm := remove_one_role_eq s posPk sp now ⟨q0, hq0, hq0pk⟩ hnew hpkb
  simp only [replace_position_step, hrm]
  set S1 : St := { s with
      positions := (position_update_roles s posPk
        (fun rs => rs.filter (fun r => !(([sp] : List Nat).dedup).contains r))).positions,
      prlogs := s.prlogs ++ [⟨s.nextPk, posPk, sp, backfill_epoch, some now⟩],
      nextPk := s.nextPk + 1 } with hS1
  have hS1pr : S1.prlogs =
      s.prlogs ++ [⟨s.nextPk, posPk, sp, backfill_epoch, some now⟩] := by rw [hS1]
  have hS1pos : S1.positions = (position_update_roles s posPk
      (fun rs => rs.filter (fun r => !(([sp] : List Nat).dedup).contains r))).positions := by
    rw [hS1]
  have hex1 : ∃ q ∈ S1.positions, q.pk = posPk := by
    rw [hS1pos]
    refine ⟨_, List.mem_map_of_mem _ hq0, ?_⟩
    dsimp only
    rw [if_pos hq0pk]
    exact hq0pk
  have hnoadd1 : ∀ e ∈ S1.prlogs,
      ¬(e.position = posPk ∧ e.role = op ∧ e.date_start = now) := by
    rw [hS1pr]
    intro e he hc
    rcases List.mem_append.mp he with h | h
    · exact hnew e h hc.1
    · rw [List.mem_singleton] at h
      subst h
      exact hso hc.2.1
  have hop1 : ∀ q ∈ S1.positions, q.pk = posPk → op ∉ q.roles := by
    rw [hS1pos]
    intro q hq hqpk
    have hq' : q ∈ s.positions.map (fun q => if q.pk = posPk then
        { q with roles := q.roles.filter (fun r => !(([sp] : List Nat).dedup).contains r) }
        else q) := hq
    obtain ⟨q1, hq1, rfl⟩ := List.mem_map.mp hq'
    by_cases h : q1.pk = posPk
    · rw [if_pos h]
      intro hmem
      exact hop q1 hq1 h (List.mem_of_mem_filter hmem)
    · rw [if_neg h] at hqpk
      exact absurd hqpk h
  have hadd := add_one_role_eq S1 posPk op now hex1 hnoadd1 hop1
  simp only [hadd, hS1]
  have hclosed : List.filter (fun e => decide (e.position = posPk ∧ e.role = sp ∧ e.date_end ≠ none))
      (s.prlogs ++ [(⟨s.nextPk, posPk, sp, backfill_epoch, some now⟩ : PRLog)] ++
        [(⟨s.nextPk + 1, posPk, op, now, none⟩ : PRLog)]) =
      [(⟨s.nextPk, posPk, sp, backfill_epoch, some now⟩ : PRLog)] := by
    rw [List.filter_append, List.filter_append]
    rw [List.filter_eq_nil_iff.mpr (fun e he => by
      simp only [decide_eq_true_eq]
      intro hc
      exact hnew e he hc.1)]
    rw [show List.filter (fun e => decide (e.position = posPk ∧ e.role = sp ∧ e.date_end ≠ none))
        [(⟨s.nextPk, posPk, sp, backfill_epoch, some now⟩ : PRLog)] =
        [(⟨s.nextPk, posPk, sp, backfill_epoch, some now⟩ : PRLog)] from by simp]
    rw [show List.filter (fun e => decide (e.position = posPk ∧ e.role = sp ∧ e.date_end ≠ none))
        [(⟨s.nextPk + 1, posPk, op, now, none⟩ : PRLog)] = [] from by simp]
    simp
  have hmax : max_by_date_end [(⟨s.nextPk, posPk, sp, backfill_epoch, some now⟩ : PRLog)] =
      some ⟨s.nextPk, posPk, sp, backfill_epoch, some now⟩ := rfl
  have hredate : List.map (fun e => if e.pk = s.nextPk
        then (⟨s.nextPk, posPk, sp, backfill_epoch, some dt⟩ : PRLog) else e)
      (s.prlogs ++ [(⟨s.nextPk, posPk, sp, backfill_epoch, some now⟩ : PRLog)] ++
        [(⟨s.nextPk + 1, posPk, op, now, none⟩ : PRLog)]) =
      s.prlogs ++ [(⟨s.nextPk, posPk, sp, backfill_epoch, some dt⟩ : PRLog)] ++
        [(⟨s.nextPk + 1, posPk, op, now, none⟩ : PRLog)] := by
    rw [List.map_append, List.map_append,
        map_if_pk_id s.prlogs s.nextPk _ (fun e he hpk => absurd hpk (Nat.ne_of_lt (hpkb e he))),
        List.map_singleton, List.map_singleton, if_pos rfl,
        if_neg (show ¬(s.nextPk + 1 = s.nextPk) from Nat.succ_ne_self s.nextPk)]
  have hopenf : List.filter (open_pred posPk op)
      (s.prlogs ++ [(⟨s.nextPk, posPk, sp, backfill_epoch, some dt⟩ : PRLog)] ++
        [(⟨s.nextPk + 1, posPk, op, now, none⟩ : PRLog)]) =
      [(⟨s.nextPk + 1, posPk, op, now, none⟩ : PRLog)] := by
    rw [List.filter_append, List.filter_append]
    rw [List.filter_eq_nil_iff.mpr (fun e he => by
      show ¬ open_pred posPk op e = true
      simp only [open_pred, decide_eq_true_eq]
      intro hc
      exact hnew e he hc.1)]
    rw [show List.filter (open_pred posPk op)
        [(⟨s.nextPk, posPk, sp, backfill_epoch, some dt⟩ : PRLog)] = [] from by
          simp [open_pred]]
    rw [show List.filter (open_pred posPk op)
        [(⟨s.nextPk + 1, posPk, op, now, none⟩ : PRLog)] =
        [(⟨s.nextPk + 1, posPk, op, now, none⟩ : PRLog)] from by simp [open_pred]]
    simp
  have hrestart : List.map (fun e => if e.pk = s.nextPk + 1
        then (⟨s.nextPk + 1, posPk, op, dt, none⟩ : PRLog) else e)
      (s.prlogs ++ [(⟨s.nextPk, posPk, sp, backfill_epoch, some dt⟩ : PRLog)] ++
        [(⟨s.nextPk + 1, posPk, op, now, none⟩ : PRLog)]) =
      s.prlogs ++ [(⟨s.nextPk, posPk, sp, backfill_epoch, some dt⟩ : PRLog)] ++
        [(⟨s.nextPk + 1, posPk, op, dt, none⟩ : PRLog)] := by
    rw [List.map_append, List.map_append,
        map_if_pk_id s.prlogs (s.nextPk + 1) _ (fun e he hpk => by
          have := hpkb e he
          omega),
        List.map_singleton, List.map_singleton,
        if_neg (show ¬(s.nextPk = s.nextPk + 1) from (Nat.succ_ne_self s.nextPk).symm),
        if_pos rfl]
  simp only [hclosed, hmax, hredate, hopenf, hrestart]
  congr 1
  congr 1
  · exact double_update_positions s.positions posPk
      (fun rs => List.filter (fun r => !(([sp] : List Nat).dedup).contains r) rs)
      (fun rs => rs ++ [op])
  · exact List.append_assoc _ _ _

theorem replace_loop_spec (sp op now dt : Nat) (pks : List Nat) :
    ∀ s : St, pks.Nodup →
    (∀ pk ∈ pks, ∃ q ∈ s.positions, q.pk = pk) →
    (∀ e ∈ s.prlogs, e.position ∉ pks) →
    (∀ e ∈ s.prlogs, e.pk < s.nextPk) →
    (∀ q ∈ s.positions, q.pk ∈ pks → op ∉ q.roles) →
    sp ≠ op →
    ∃ s', run_list (fun st posPk => replace_position_step st posPk sp op now dt) s pks =
        (s', none) ∧
      s'.roles = s.roles ∧ s'.worklogs = s.worklogs ∧
      s'.positions.map (fun q => q.pk) = s.positions.map (fun q => q.pk) := by
  induction pks with
  | nil =>
    intro s _ _ _ _ _ _
    exact ⟨s, rfl, rfl, rfl, rfl⟩
  | cons pk rest ih =>
    intro s hnd hex hnew hpkb hop hso
    rw [List.nodup_cons] at hnd
    have hstep := replace_position_step_eq s pk sp op now dt
      (hex pk (List.mem_cons_self _ _))
      (fun e he hc => hnew e he (by rw [hc]; exact List.mem_cons_self _ _))
      hpkb
      (fun q hq hqpk => hop q hq (by rw [hqpk]; exact List.mem_cons_self _ _))
      hso
    rw [run_list_cons]
    simp only [hstep]
    set S1 : St := { s with
        positions := s.positions.map (fun q =>
          if q.pk = pk then
            { q with roles := q.roles.filter (fun r => !(([sp] : List Nat).dedup).contains r) ++ [op] }
          else q),
        prlogs := s.prlogs ++ [⟨s.nextPk, pk, sp, backfill_epoch, some dt⟩,
          ⟨s.nextPk + 1, pk, op, dt, none⟩],
        nextPk := s.nextPk + 2 } with hS1
    have hS1map : S1.positions.map (fun q => q.pk) = s.positions.map (fun q => q.pk) := by
      rw [hS1]
      show (s.positions.map (fun q =>
          if q.pk = pk then
            { q with roles := q.roles.filter (fun r => !(([sp] : List Nat).dedup).contains r) ++ [op] }
          else q)).map (fun q => q.pk) = _
      rw [List.map_map]
      apply List.map_congr_left
      intro q hq
      by_cases h : q.pk = pk
      · simp [h]
      · simp [h]
    have hex1 : ∀ pk' ∈ rest, ∃ q ∈ S1.positions, q.pk = pk' := by
      intro pk' hpk'
      obtain ⟨q, hq, hqpk⟩ := hex pk' (List.mem_cons_of_mem _ hpk')
      have hmem : pk' ∈ S1.positions.map (fun q => q.pk) := by
        rw [hS1map]
        exact hqpk ▸ List.mem_map_of_mem (fun q => q.pk) hq
      obtain ⟨q', hq', hq'pk⟩ := List.mem_map.mp hmem
      exact ⟨q', hq', hq'pk⟩
    have hS1pr : S1.prlogs = s.prlogs ++ [⟨s.nextPk, pk, sp, backfill_epoch, some dt⟩,
        ⟨s.nextPk + 1, pk, op, dt, none⟩] := by rw [hS1]
    have hnew1 : ∀ e ∈ S1.prlogs, e.position ∉ rest := by
      rw [hS1pr]
      intro e he hc
      rcases List.mem_append.mp he with h | h
      · exact hnew e h (List.mem_cons_of_mem _ hc)
      · rcases List.mem_cons.mp h with h2 | h2
        · subst h2
          exact hnd.1 hc
        · rw [List.mem_singleton] at h2
          subst h2
          exact hnd.1 hc
    have hpkb1 : ∀ e ∈ S1.prlogs, e.pk < S1.nextPk := by
      rw [hS1pr, hS1]
      intro e he
      rcases List.mem_append.mp he with h | h
      · have := hpkb e h
        show e.pk < s.nextPk + 2
        omega
      · rcases List.mem_cons.mp h with h2 | h2
        · subst h2
          show s.nextPk < s.nextPk + 2
          omega
        · rw [List.mem_singleton] at h2
          subst h2
          show s.nextPk + 1 < s.nextPk + 2
          omega
    have hop1 : ∀ q ∈ S1.positions, q.pk ∈ rest → op ∉ q.roles := by
      rw [hS1]
      intro q hq hqpk
      have hq' : q ∈ s.positions.map (fun q =>
          if q.pk = pk then
            { q with roles := q.roles.filter (fun r => !(([sp] : List Nat).dedup).contains r) ++ [op] }
          else q) := hq
      obtain ⟨q1, hq1, rfl⟩ := List.mem_map.mp hq'
      by_cases h : q1.pk = pk
      · rw [if_pos h] at hqpk ⊢
        exact absurd (show q1.pk ∈ rest from hqpk) (h ▸ hnd.1)
      · rw [if_neg h] at hqpk ⊢
        exact hop q1 hq1 (List.mem_cons_of_mem _ hqpk)
    obtain ⟨s', hrun, hr, hw, hm⟩ := ih S1 hnd.2 hex1 hnew1 hpkb1 hop1 hso
    refine ⟨s', hrun, ?_, ?_, ?_⟩
    · rw [hr, hS1]
    · rw [hw, hS1]
    · rw [hm, hS1map]

/-- C7: for a stored role (the filter on its pk returns exactly the stored
row) with at least one referencing work log, saving a candidate whose
pay-affecting fields (salary type, salary or calendar scheme) changed and
whose date_start is less than or equal to the stored date_start raises
ValidationError and returns the store untouched: either the candidate's
own dates are inconsistent (date_end not after date_start) or the
versioning guard `date_start <= old_ins.date_start` fires, and both raises
happen before any write. -/
theorem c7_versioning_into_past (fuel now : Nat) (s : St) (c old : Role) (p : Nat)
    (hcpk : c.pk = some p)
    (hget : s.roles.filter (fun x => decide (x.pk = some p)) = [old])
    (hwl : 0 < s.worklogs.countP (fun w => decide (w.role = p)))
    (hpay : ¬(c.salary_type = old.salary_type ∧ c.salary = old.salary ∧
      c.calendar_scheme = old.calendar_scheme))
    (hds : c.date_start ≤ old.date_start) :
    ∃ msg, role_save (fuel + 2) now s c = (s, Except.error (VErr.validation msg)) := by
  have hclean : ∃ msg, role_clean (fuel + 1) now s c =
      (s, Except.error (VErr.validation msg)) := by
    by_cases h : ∃ de, c.date_end = some de ∧ de ≤ c.date_start
    · refine ⟨"date_end must be greater than date start", ?_⟩
      simp only [role_clean]
      rw [dif_pos h]
    · refine ⟨"date start must be newer than in previous role version", ?_⟩
      have hpay2 : ¬ c.salary_type = old.salary_type ∨ ¬ c.salary = old.salary ∨
          ¬ c.calendar_scheme = old.calendar_scheme := by tauto
      simp only [role_clean]
      rw [dif_neg h]
      simp only [hcpk]
      rw [if_pos hwl]
      simp only [hget]
      rw [if_pos hpay2, if_pos hds]
  obtain ⟨msg, hmsg⟩ := hclean
  refine ⟨msg, ?_⟩
  show role_save (fuel + 1 + 1) now s c = _
  simp only [role_save, hmsg]

theorem c1_stageA (fuel now : Nat) (s : St) (c old : Role) (p : Nat)
    (hpklt : p < s.nextPk)
    (hds : old.date_start < c.date_start)
    (hwl : 0 < s.worklogs.countP (fun w => decide (w.role = p))) :
    role_clean (fuel + 1) now ({ s with roles := [({ pk := some p, name := "[" ++ toString c.date_start ++ "] " ++ c.name, salary_type := old.salary_type, salary := old.salary, calendar_scheme := old.calendar_scheme, color := old.color, is_paid_on_vacation := old.is_paid_on_vacation, date_start := old.date_start, date_end := old.date_end, replaced_by := old.replaced_by } : Role), ({ pk := some s.nextPk, name := c.name, salary_type := c.salary_type, salary := c.salary, calendar_scheme := c.calendar_scheme, color := c.color, is_paid_on_vacation := c.is_paid_on_vacation, date_start := c.date_start, date_end := none, replaced_by := c.replaced_by } : Role)], nextPk := s.nextPk + 1 } : St) ({ pk := some p, name := "[" ++ toString c.date_start ++ "] " ++ c.name, salary_type := old.salary_type, salary := old.salary, calendar_scheme := old.calendar_scheme, color := old.color, is_paid_on_vacation := old.is_paid_on_vacation, date_start := old.date_start, date_end := some c.date_start, replaced_by := some s.nextPk } : Role) =
      (({ s with roles := [({ pk := some p, name := "[" ++ toString c.date_start ++ "] " ++ c.name, salary_type := old.salary_type, salary := old.salary, calendar_scheme := old.calendar_scheme, color := old.color, is_paid_on_vacation := old.is_paid_on_vacation, date_start := old.date_start, date_end := old.date_end, replaced_by := old.replaced_by } : Role), ({ pk := some s.nextPk, name := c.name, salary_type := c.salary_type, salary := c.salary, calendar_scheme := c.calendar_scheme, color := c.color, is_paid_on_vacation := c.is_paid_on_vacation, date_start := c.date_start, date_end := none, replaced_by := c.replaced_by } : Role)], nextPk := s.nextPk + 1 } : St), Except.ok ({ pk := some p, name := "[" ++ toString c.date_start ++ "] " ++ c.name, salary_type := old.salary_type, salary := old.salary, calendar_scheme := old.calendar_scheme, color := old.color, is_paid_on_vacation := old.is_paid_on_vacation, date_start := old.date_start, date_end := some c.date_start, replaced_by := some s.nextPk } : Role)) := by
  simp only [role_clean]
  rw [dif_neg (show ¬ ∃ de, (some c.date_start = some de ∧ de ≤ old.date_start) from by
    rintro ⟨de, hde1, hle⟩
    injection hde1 with h2
    omega)]
  rw [if_pos hwl]
  rw [show List.filter (fun x => decide (x.pk = some p)) [({ pk := some p, name := "[" ++ toString c.date_start ++ "] " ++ c.name, salary_type := old.salary_type, salary := old.salary, calendar_scheme := old.calendar_scheme, color := old.color, is_paid_on_vacation := old.is_paid_on_vacation, date_start := old.date_start, date_end := old.date_end, replaced_by := old.replaced_by } : Role), ({ pk := some s.nextPk, name := c.name, salary_type := c.salary_type, salary := c.salary, calendar_scheme := c.calendar_scheme, color := c.color, is_paid_on_vacation := c.is_paid_on_vacation, date_start := c.date_start, date_end := none, replaced_by := c.replaced_by } : Role)] = [({ pk := some p, name := "[" ++ toString c.date_start ++ "] " ++ c.name, salary_type := old.salary_type, salary := old.salary, calendar_scheme := old.calendar_scheme, color := old.color, is_paid_on_vacation := old.is_paid_on_vacation, date_start := old.date_start, date_end := old.date_end, replaced_by := old.replaced_by } : Role)] from by
    simp [Nat.ne_of_gt hpklt]]
  dsimp only
  rw [if_neg (show ¬(¬old.salary_type = old.salary_type ∨ ¬old.salary = old.salary ∨
      ¬old.calendar_scheme = old.calendar_scheme) from by simp)]

theorem c1_stageB (fuel now : Nat) (s : St) (c old : Role) (p : Nat)
    (hpklt : p < s.nextPk)
    (hds : old.date_start < c.date_start)
    (hwl : 0 < s.worklogs.countP (fun w => decide (w.role = p))) :
    role_save (fuel + 2) now ({ s with roles := [({ pk := some p, name := "[" ++ toString c.date_start ++ "] " ++ c.name, salary_type := old.salary_type, salary := old.salary, calendar_scheme := old.calendar_scheme, color := old.color, is_paid_on_vacation := old.is_paid_on_vacation, date_start := old.date_start, date_end := old.date_end, replaced_by := old.replaced_by } : Role), ({ pk := some s.nextPk, name := c.name, salary_type := c.salary_type, salary := c.salary, calendar_scheme := c.calendar_scheme, color := c.color, is_paid_on_vacation := c.is_paid_on_vacation, date_start := c.date_start, date_end := none, replaced_by := c.replaced_by } : Role)], nextPk := s.nextPk + 1 } : St) ({ pk := some p, name := "[" ++ toString c.date_start ++ "] " ++ c.name, salary_type := old.salary_type, salary := old.salary, calendar_scheme := old.calendar_scheme, color := old.color, is_paid_on_vacation := old.is_paid_on_vacation, date_start := old.date_start, date_end := some c.date_start, replaced_by := some s.nextPk } : Role) =
      (({ s with roles := [({ pk := some p, name := "[" ++ toString c.date_start ++ "] " ++ c.name, salary_type := old.salary_type, salary := old.salary, calendar_scheme := old.calendar_scheme, color := old.color, is_paid_on_vacation := old.is_paid_on_vacation, date_start := old.date_start, date_end := some c.date_start, replaced_by := some s.nextPk } : Role), ({ pk := some s.nextPk, name := c.name, salary_type := c.salary_type, salary := c.salary, calendar_scheme := c.calendar_scheme, color := c.color, is_paid_on_vacation := c.is_paid_on_vacation, date_start := c.date_start, date_end := none, replaced_by := c.replaced_by } : Role)], nextPk := s.nextPk + 1 } : St), Except.ok ({ pk := some p, name := "[" ++ toString c.date_start ++ "] " ++ c.name, salary_type := old.salary_type, salary := old.salary, calendar_scheme := old.calendar_scheme, color := old.color, is_paid_on_vacation := old.is_paid_on_vacation, date_start := old.date_start, date_end := some c.date_start, replaced_by := some s.nextPk } : Role)) := by
  simp only [role_save]
  rw [c1_stageA fuel now s c old p hpklt hds hwl]
  dsimp only
  simp [raw_role_save, Nat.ne_of_gt hpklt]

theorem c1_stageC (fuel now : Nat) (s : St) (c old : Role) (p : Nat)
    (hpklt : p < s.nextPk)
    (hds : old.date_start < c.date_start)
    (hwl : 0 < s.worklogs.countP (fun w => decide (w.role = p)))
    (hcrb : c.replaced_by = none)
    (hposnd : (s.positions.map (fun q => q.pk)).Nodup)
    (hroleset : ∀ q ∈ s.positions, ∀ r ∈ q.roles, r = p)
    (hprl : s.prlogs = []) :
    ∃ s6,
      role_replace_by (fuel + 3) now ({ s with roles := [({ pk := some p, name := "[" ++ toString c.date_start ++ "] " ++ c.name, salary_type := old.salary_type, salary := old.salary, calendar_scheme := old.calendar_scheme, color := old.color, is_paid_on_vacation := old.is_paid_on_vacation, date_start := old.date_start, date_end := old.date_end, replaced_by := old.replaced_by } : Role), ({ pk := some s.nextPk, name := c.name, salary_type := c.salary_type, salary := c.salary, calendar_scheme := c.calendar_scheme, color := c.color, is_paid_on_vacation := c.is_paid_on_vacation, date_start := c.date_start, date_end := none, replaced_by := c.replaced_by } : Role)], nextPk := s.nextPk + 1 } : St) ({ pk := some p, name := "[" ++ toString c.date_start ++ "] " ++ c.name, salary_type := old.salary_type, salary := old.salary, calendar_scheme := old.calendar_scheme, color := old.color, is_paid_on_vacation := old.is_paid_on_vacation, date_start := old.date_start, date_end := old.date_end, replaced_by := old.replaced_by } : Role) ({ pk := some s.nextPk, name := c.name, salary_type := c.salary_type, salary := c.salary, calendar_scheme := c.calendar_scheme, color := c.color, is_paid_on_vacation := c.is_paid_on_vacation, date_start := c.date_start, date_end := none, replaced_by := c.replaced_by } : Role) c.date_start = (s6, none) ∧
      s6.roles = [({ pk := some p, name := "[" ++ toString c.date_start ++ "] " ++ c.name, salary_type := old.salary_type, salary := old.salary, calendar_scheme := old.calendar_scheme, color := old.color, is_paid_on_vacation := old.is_paid_on_vacation, date_start := old.date_start, date_end := some c.date_start, replaced_by := some s.nextPk } : Role), ({ pk := some s.nextPk, name := c.name, salary_type := c.salary_type, salary := c.salary, calendar_scheme := c.calendar_scheme, color := c.color, is_paid_on_vacation := c.is_paid_on_vacation, date_start := c.date_start, date_end := none, replaced_by := c.replaced_by } : Role)] ∧
      s6.worklogs = s.worklogs.map (fun w =>
        if w.role = p ∧ c.date_start ≤ w.date then { w with role := s.nextPk } else w) := by
  simp only [role_replace_by]
  rw [c1_stageB fuel now s c old p hpklt hds hwl]
  dsimp only
  rw [show List.map (fun (x : Role) =>
      if x.replaced_by = some p then { x with replaced_by := some s.nextPk } else x)
      [({ pk := some p, name := "[" ++ toString c.date_start ++ "] " ++ c.name, salary_type := old.salary_type, salary := old.salary, calendar_scheme := old.calendar_scheme, color := old.color, is_paid_on_vacation := old.is_paid_on_vacation, date_start := old.date_start, date_end := some c.date_start, replaced_by := some s.nextPk } : Role), ({ pk := some s.nextPk, name := c.name, salary_type := c.salary_type, salary := c.salary, calendar_scheme := c.calendar_scheme, color := c.color, is_paid_on_vacation := c.is_paid_on_vacation, date_start := c.date_start, date_end := none, replaced_by := c.replaced_by } : Role)] = [({ pk := some p, name := "[" ++ toString c.date_start ++ "] " ++ c.name, salary_type := old.salary_type, salary := old.salary, calendar_scheme := old.calendar_scheme, color := old.color, is_paid_on_vacation := old.is_paid_on_vacation, date_start := old.date_start, date_end := some c.date_start, replaced_by := some s.nextPk } : Role), ({ pk := some s.nextPk, name := c.name, salary_type := c.salary_type, salary := c.salary, calendar_scheme := c.calendar_scheme, color := c.color, is_paid_on_vacation := c.is_paid_on_vacation, date_start := c.date_start, date_end := none, replaced_by := c.replaced_by } : Role)] from by
    simp [Nat.ne_of_gt hpklt, hcrb]]
  obtain ⟨s5, hrun, hr5, hw5, hm5⟩ := replace_loop_spec p s.nextPk now c.date_start
    (List.map (fun pos => pos.pk) (List.filter (fun pos => pos.roles.contains p) s.positions))
    ({ s with roles := [({ pk := some p, name := "[" ++ toString c.date_start ++ "] " ++ c.name, salary_type := old.salary_type, salary := old.salary, calendar_scheme := old.calendar_scheme, color := old.color, is_paid_on_vacation := old.is_paid_on_vacation, date_start := old.date_start, date_end := some c.date_start, replaced_by := some s.nextPk } : Role), ({ pk := some s.nextPk, name := c.name, salary_type := c.salary_type, salary := c.salary, calendar_scheme := c.calendar_scheme, color := c.color, is_paid_on_vacation := c.is_paid_on_vacation, date_start := c.date_start, date_end := none, replaced_by := c.replaced_by } : Role)], nextPk := s.nextPk + 1 } : St)
    (List.Nodup.sublist (List.Sublist.map (fun pos => pos.pk)
      (List.filter_sublist s.positions)) hposnd)
    (by
      intro pk' hpk'
      obtain ⟨q, hq, rfl⟩ := List.mem_map.mp hpk'
      exact ⟨q, List.mem_of_mem_filter hq, rfl⟩)
    (by
      intro e he
      have he' : e ∈ s.prlogs := he
      rw [hprl] at he'
      cases he')
    (by
      intro e he
      have he' : e ∈ s.prlogs := he
      rw [hprl] at he'
      cases he')
    (by
      intro q hq hmem hrl
      have := hroleset q hq s.nextPk hrl
      omega)
    (Nat.ne_of_lt hpklt)
  rw [hrun]
  dsimp only
  refine ⟨_, rfl, ?_, ?_⟩
  · show s5.roles = _
    rw [hr5]
  · show List.map _ s5.worklogs = _
    rw [hw5]

theorem c1_stageD (fuel now : Nat) (s : St) (c old : Role) (p : Nat)
    (hroles : s.roles = [old])
    (holdpk : old.pk = some p)
    (hcpk : c.pk = some p)
    (hpklt : p < s.nextPk)
    (hpay : ¬(c.salary_type = old.salary_type ∧ c.salary = old.salary ∧
      c.calendar_scheme = old.calendar_scheme))
    (hds : old.date_start < c.date_start)
    (hde : c.date_end = none ∨ ∃ de, c.date_end = some de ∧ c.date_start < de)
    (hcrb : c.replaced_by = none)
    (hwl : 0 < s.worklogs.countP (fun w => decide (w.role = p)))
    (hposnd : (s.positions.map (fun q => q.pk)).Nodup)
    (hroleset : ∀ q ∈ s.positions, ∀ r ∈ q.roles, r = p)
    (hprl : s.prlogs = []) :
    ∃ s6, role_clean (fuel + 4) now s c = (s6, Except.ok ({ pk := some s.nextPk, name := c.name, salary_type := c.salary_type, salary := c.salary, calendar_scheme := c.calendar_scheme, color := c.color, is_paid_on_vacation := c.is_paid_on_vacation, date_start := c.date_start, date_end := none, replaced_by := c.replaced_by } : Role)) ∧
      s6.roles = [({ pk := some p, name := "[" ++ toString c.date_start ++ "] " ++ c.name, salary_type := old.salary_type, salary := old.salary, calendar_scheme := old.calendar_scheme, color := old.color, is_paid_on_vacation := old.is_paid_on_vacation, date_start := old.date_start, date_end := some c.date_start, replaced_by := some s.nextPk } : Role), ({ pk := some s.nextPk, name := c.name, salary_type := c.salary_type, salary := c.salary, calendar_scheme := c.calendar_scheme, color := c.color, is_paid_on_vacation := c.is_paid_on_vacation, date_start := c.date_start, date_end := none, replaced_by := c.replaced_by } : Role)] ∧
      s6.worklogs = s.worklogs.map (fun w =>
        if w.role = p ∧ c.date_start ≤ w.date then { w with role := s.nextPk } else w) := by
  have hdite : ¬ ∃ de, c.date_end = some de ∧ de ≤ c.date_start := by
    rintro ⟨de, hde1, hle⟩
    rcases hde with h | ⟨de2, hde2, hlt⟩
    · rw [h] at hde1
      cases hde1
    · rw [hde2] at hde1
      injection hde1 with h2
      omega
  have hpay2 : ¬ c.salary_type = old.salary_type ∨ ¬ c.salary = old.salary ∨
      ¬ c.calendar_scheme = old.calendar_scheme := by tauto
  have hraw1 : raw_role_save s ({ pk := some p, name := "[" ++ toString c.date_start ++ "] " ++ c.name, salary_type := old.salary_type, salary := old.salary, calendar_scheme := old.calendar_scheme, color := old.color, is_paid_on_vacation := old.is_paid_on_vacation, date_start := old.date_start, date_end := old.date_end, replaced_by := old.replaced_by } : Role) = (({ s with roles := [({ pk := some p, name := "[" ++ toString c.date_start ++ "] " ++ c.name, salary_type := old.salary_type, salary := old.salary, calendar_scheme := old.calendar_scheme, color := old.color, is_paid_on_vacation := old.is_paid_on_vacation, date_start := old.date_start, date_end := old.date_end, replaced_by := old.replaced_by } : Role)] } : St), ({ pk := some p, name := "[" ++ toString c.date_start ++ "] " ++ c.name, salary_type := old.salary_type, salary := old.salary, calendar_scheme := old.calendar_scheme, color := old.color, is_paid_on_vacation := old.is_paid_on_vacation, date_start := old.date_start, date_end := old.date_end, replaced_by := old.replaced_by } : Role)) := by
    simp only [raw_role_save]
    rw [hroles]
    rw [if_pos (show ([old].any (fun x => decide (x.pk = some p))) = true from by
      simp [holdpk])]
    rw [show List.map (fun x => if x.pk = some p then ({ pk := some p, name := "[" ++ toString c.date_start ++ "] " ++ c.name, salary_type := old.salary_type, salary := old.salary, calendar_scheme := old.calendar_scheme, color := old.color, is_paid_on_vacation := old.is_paid_on_vacation, date_start := old.date_start, date_end := old.date_end, replaced_by := old.replaced_by } : Role) else x) [old] = [({ pk := some p, name := "[" ++ toString c.date_start ++ "] " ++ c.name, salary_type := old.salary_type, salary := old.salary, calendar_scheme := old.calendar_scheme, color := old.color, is_paid_on_vacation := old.is_paid_on_vacation, date_start := old.date_start, date_end := old.date_end, replaced_by := old.replaced_by } : Role)]
      from by simp [holdpk]]
  have hraw2 : raw_role_save ({ s with roles := [({ pk := some p, name := "[" ++ toString c.date_start ++ "] " ++ c.name, salary_type := old.salary_type, salary := old.salary, calendar_scheme := old.calendar_scheme, color := old.color, is_paid_on_vacation := old.is_paid_on_vacation, date_start := old.date_start, date_end := old.date_end, replaced_by := old.replaced_by } : Role)] } : St)
      ({ c with
          pk := none
          date_end := none } : Role) = (({ s with roles := [({ pk := some p, name := "[" ++ toString c.date_start ++ "] " ++ c.name, salary_type := old.salary_type, salary := old.salary, calendar_scheme := old.calendar_scheme, color := old.color, is_paid_on_vacation := old.is_paid_on_vacation, date_start := old.date_start, date_end := old.date_end, replaced_by := old.replaced_by } : Role), ({ pk := some s.nextPk, name := c.name, salary_type := c.salary_type, salary := c.salary, calendar_scheme := c.calendar_scheme, color := c.color, is_paid_on_vacation := c.is_paid_on_vacation, date_start := c.date_start, date_end := none, replaced_by := c.replaced_by } : Role)], nextPk := s.nextPk + 1 } : St), ({ pk := some s.nextPk, name := c.name, salary_type := c.salary_type, salary := c.salary, calendar_scheme := c.calendar_scheme, color := c.color, is_paid_on_vacation := c.is_paid_on_vacation, date_start := c.date_start, date_end := none, replaced_by := c.replaced_by } : Role)) := by
    simp [raw_role_save]
  obtain ⟨s6, hC1, hC2, hC3⟩ := c1_stageC fuel now s c old p hpklt hds hwl hcrb
    hposnd hroleset hprl
  refine ⟨s6, ?_, hC2, hC3⟩
  simp only [role_clean]
  rw [dif_neg hdite]
  simp only [hcpk]
  rw [if_pos hwl]
  rw [hroles]
  rw [show List.filter (fun x => decide (x.pk = some p)) [old] = [old] from by
    simp [holdpk]]
  dsimp only
  rw [if_pos hpay2]
  rw [if_neg (show ¬(c.date_start ≤ old.date_start) from Nat.not_le.mpr hds)]
  simp only [holdpk]
  rw [hraw1]
  dsimp only
  rw [hraw2]
  dsimp only
  rw [hC1]

/-- C1: versioning a role in place.  The store holds the single stored role
`old` (pk `p`, open, with at least one work log on it); the candidate
carries the same pk, different pay data, a strictly later date_start, and
clean optional fields; positions are keyed by distinct pks and may hold
the role; the log table is empty.  Saving the candidate yields exactly two
role rows: the old one renamed, closed at the candidate's date_start and
pointing at the new row via replaced_by, and the new row open under the
fresh pk; and every work log of the old role moves to the new role exactly
when its date is on or after the cutover. -/
theorem c1_role_versioning (fuel now : Nat) (s : St) (c old : Role) (p : Nat)
    (hroles : s.roles = [old])
    (holdpk : old.pk = some p)
    (hcpk : c.pk = some p)
    (hpklt : p < s.nextPk)
    (hpay : ¬(c.salary_type = old.salary_type ∧ c.salary = old.salary ∧
      c.calendar_scheme = old.calendar_scheme))
    (hds : old.date_start < c.date_start)
    (hde : c.date_end = none ∨ ∃ de, c.date_end = some de ∧ c.date_start < de)
    (hcrb : c.replaced_by = none)
    (hwl : 0 < s.worklogs.countP (fun w => decide (w.role = p)))
    (hposnd : (s.positions.map (fun q => q.pk)).Nodup)
    (hroleset : ∀ q ∈ s.positions, ∀ r ∈ q.roles, r = p)
    (hprl : s.prlogs = []) :
    ∃ s', role_save (fuel + 5) now s c = (s', Except.ok ({ pk := some s.nextPk, name := c.name, salary_type := c.salary_type, salary := c.salary, calendar_scheme := c.calendar_scheme, color := c.color, is_paid_on_vacation := c.is_paid_on_vacation, date_start := c.date_start, date_end := none, replaced_by := c.replaced_by } : Role)) ∧
      s'.roles = [({ pk := some p, name := "[" ++ toString c.date_start ++ "] " ++ c.name, salary_type := old.salary_type, salary := old.salary, calendar_scheme := old.calendar_scheme, color := old.color, is_paid_on_vacation := old.is_paid_on_vacation, date_start := old.date_start, date_end := some c.date_start, replaced_by := some s.nextPk } : Role), ({ pk := some s.nextPk, name := c.name, salary_type := c.salary_type, salary := c.salary, calendar_scheme := c.calendar_scheme, color := c.color, is_paid_on_vacation := c.is_paid_on_vacation, date_start := c.date_start, date_end := none, replaced_by := c.replaced_by } : Role)] ∧
      s'.worklogs = s.worklogs.map (fun w =>
        if w.role = p ∧ c.date_start ≤ w.date then { w with role := s.nextPk } else w) := by
  obtain ⟨s6, hD1, hD2, hD3⟩ := c1_stageD fuel now s c old p hroles holdpk hcpk hpklt
    hpay hds hde hcrb hwl hposnd hroleset hprl
  simp only [role_save]
  rw [hD1]
  dsimp only
  simp only [raw_role_save]
  rw [hD2]
  rw [if_pos (show ([({ pk := some p, name := "[" ++ toString c.date_start ++ "] " ++ c.name, salary_type := old.salary_type, salary := old.salary, calendar_scheme := old.calendar_scheme, color := old.color, is_paid_on_vacation := old.is_paid_on_vacation, date_start := old.date_start, date_end := some c.date_start, replaced_by := some s.nextPk } : Role), ({ pk := some s.nextPk, name := c.name, salary_type := c.salary_type, salary := c.salary, calendar_scheme := c.calendar_scheme, color := c.color, is_paid_on_vacation := c.is_paid_on_vacation, date_start := c.date_start, date_end := none, replaced_by := c.replaced_by } : Role)].any (fun x => decide (x.pk = some s.nextPk))) = true
    from by simp)]
  refine ⟨_, rfl, ?_, hD3⟩
  dsimp only
  show List.map _ [({ pk := some p, name := "[" ++ toString c.date_start ++ "] " ++ c.name, salary_type := old.salary_type, salary := old.salary, calendar_scheme := old.calendar_scheme, color := old.color, is_paid_on_vacation := old.is_paid_on_vacation, date_start := old.date_start, date_end := some c.date_start, replaced_by := some s.nextPk } : Role), ({ pk := some s.nextPk, name := c.name, salary_type := c.salary_type, salary := c.salary, calendar_scheme := c.calendar_scheme, color := c.color, is_paid_on_vacation := c.is_paid_on_vacation, date_start := c.date_start, date_end := none, replaced_by := c.replaced_by } : Role)] = _
  simp [Nat.ne_of_gt hpklt]
  omega

theorem c7_versioning_into_past_witness :
    ∃ msg, role_save 2 8 c7st c7cand = (c7st, Except.error (VErr.validation msg)) :=
  c7_versioning_into_past 0 8 c7st c7cand c7old 10 (by decide) (by decide) (by decide)
    (by decide) (by decide)

theorem c1_role_versioning_witness :
    ∃ s', role_save 5 8 c1st c1cand =
        (s', Except.ok ({ pk := some c1st.nextPk, name := c1cand.name, salary_type := c1cand.salary_type, salary := c1cand.salary, calendar_scheme := c1cand.calendar_scheme, color := c1cand.color, is_paid_on_vacation := c1cand.is_paid_on_vacation, date_start := c1cand.date_start, date_end := none, replaced_by := c1cand.replaced_by } : Role)) ∧
      s'.roles = [({ pk := some 10, name := "[" ++ toString c1cand.date_start ++ "] " ++ c1cand.name, salary_type := c1old.salary_type, salary := c1old.salary, calendar_scheme := c1old.calendar_scheme, color := c1old.color, is_paid_on_vacation := c1old.is_paid_on_vacation, date_start := c1old.date_start, date_end := some c1cand.date_start, replaced_by := some c1st.nextPk } : Role),
        ({ pk := some c1st.nextPk, name := c1cand.name, salary_type := c1cand.salary_type, salary := c1cand.salary, calendar_scheme := c1cand.calendar_scheme, color := c1cand.color, is_paid_on_vacation := c1cand.is_paid_on_vacation, date_start := c1cand.date_start, date_end := none, replaced_by := c1cand.replaced_by } : Role)] ∧
      s'.worklogs = c1st.worklogs.map (fun w =>
        if w.role = 10 ∧ c1cand.date_start ≤ w.date then { w with role := c1st.nextPk } else w) :=
  c1_role_versioning 0 8 c1st c1cand c1old 10 (by decide) (by decide) (by decide)
    (by decide) (by decide) (by decide) (Or.inl rfl) (by decide) (by decide) (by decide)
    (by decide) (by decide)
